import Mathlib

/-!
# sing-shadowsocks: a shallow embedding of the transport core

The development embeds, as pure functions over byte lists, the parts of
`shadowaead_2022/relay.go`, `shadowstream/protocol.go` and
`shadowaead_2022/encrypted_stream.go` that the specification talks about, and
proves (or refutes) the specification's sentences about them.

Conventions.
* A byte is a `Fin 256`; a Go `[]byte` is a `List Byte`.
* A Go `map[K]V` is a function `K → Option V`; assignment `m[k] = v` is `GoMap.set`.
* Cryptographic primitives of external libraries (AES, blake3, the stream
  ciphers, the AEAD) are parameters of the embedding.
* A fallible Go function returns `Except Error _`; a run-time panic is the
  error `Error.panic`.
-/

namespace Shadowsocks

/-- One octet. -/
abbrev Byte := Fin 256

/-- The error values the embedded code can return. -/
inductive Error where
  /-- The value `shadowsocks.ErrBadKey`. -/
  | ErrBadKey
  /-- The value `shadowsocks.ErrMissingPassword`. -/
  | ErrMissingPassword
  /-- The value `shadowaead.ErrBadHeader`, text "bad header". -/
  | ErrBadHeader
  /-- The value `os.ErrInvalid`. -/
  | ErrInvalid
  /-- The value `E.New("invalid request")`. -/
  | invalidRequest
  /-- The value `aes.KeySizeError(n)`. -/
  | keySizeError (n : Nat)
  /-- An error reported by an external collaborator (connection, cipher constructor). -/
  | external (msg : String)
  /-- A run-time panic (index out of range, nil dereference, explicit panic). -/
  | panic (msg : String)
  /-- The value `E.New(text)`, an error with the given text. -/
  | message (text : String)
  /-- The value `E.Cause(cause, text)`, an error that wraps its cause. -/
  | cause (cause : Error) (text : String)
  deriving DecidableEq, Repr

/-- The length of an AES block, `aes.BlockSize`. -/
def aesBlockSize : Nat := 16

/-- A Go map as a partial function. -/
abbrev GoMap (K V : Type) := K → Option V

/-- The empty map `make(map[K]V)`. -/
def GoMap.empty {K V : Type} : GoMap K V := fun _ => none

/-- The assignment `m[k] = v`. -/
def GoMap.set {K V : Type} [DecidableEq K] (m : GoMap K V) (k : K) (v : V) : GoMap K V :=
  fun k' => if k' = k then some v else m k'

/-- The built-in `copy(dst[off:], src)` seen on the whole destination: the bytes of
`src` overwrite `dst` from offset `off`, as many as fit; `src` is read before the
write, as Go's `copy` does for overlapping slices. -/
def copyAt (dst : List Byte) (off : Nat) (src : List Byte) : List Byte :=
  dst.take off ++ src.take (dst.length - off) ++ dst.drop (off + src.length)

/-- Byte-wise exclusive or of two byte strings. -/
def xorBytes (a b : List Byte) : List Byte := List.zipWith (fun x y => x ^^^ y) a b

/-- Extend with zero bytes or cut to exactly `n` bytes. -/
def padTo (n : Nat) (l : List Byte) : List Byte := (l ++ List.replicate n 0).take n

/-- The value `binary.BigEndian.Uint64(b)`: the first eight bytes, most significant first. -/
def beUint64 (b : List Byte) : Nat :=
  (b.take 8).foldl (fun acc x => acc * 256 + x.val) 0

/-- The value `binary.BigEndian.Uint16(b)` of a two-byte slice. -/
def beUint16 (b : List Byte) : Nat :=
  (b.take 2).foldl (fun acc x => acc * 256 + x.val) 0

/-- The primitives of external libraries used by the 2022 relay. `Key` is the
key-stretch function of package `shadowaead_2022`. A `cipher.Block` built by
`aes.NewCipher(key)` is represented by `key`; `aesEncrypt key` and
`aesDecrypt key` are its `Encrypt` and `Decrypt` on one block. -/
structure Primitives where
  /-- One-block encryption `Block.Encrypt`. -/
  aesEncrypt : List Byte → List Byte → List Byte
  /-- One-block decryption `Block.Decrypt`. -/
  aesDecrypt : List Byte → List Byte → List Byte
  /-- The digest `blake3.Sum512`. -/
  blake3Sum512 : List Byte → List Byte
  /-- The function `blake3.DeriveKey(out, context, material)` with `len(out)` as last argument. -/
  blake3DeriveKey : String → List Byte → Nat → List Byte
  /-- The key stretch `Key(psk, length)`. -/
  Key : List Byte → Nat → List Byte

/-- The constructor `aes.NewCipher`: it accepts keys of 16, 24 or 32 bytes. -/
def aesNewCipher (key : List Byte) : Except Error (List Byte) :=
  if key.length = 16 ∨ key.length = 24 ∨ key.length = 32 then .ok key
  else .error (.keySizeError key.length)

/-- The fields of `M.Metadata` the core reads or writes. -/
structure Metadata (A : Type) where
  /-- The field `metadata.Protocol`. -/
  Protocol : String
  /-- The field `metadata.Source`. -/
  Source : A
  /-- The field `metadata.Destination`. -/
  Destination : A

/-- The state of `Relay[U]`; `A` is the type of `M.Socksaddr`. The handler and the
UDP NAT are external collaborators and appear as the outputs of the operations. -/
structure Relay (U A : Type) where
  /-- The field `name`. -/
  name : String
  /-- The field `keySaltLength`. -/
  keySaltLength : Nat
  /-- The field `blockConstructor`. -/
  blockConstructor : List Byte → Except Error (List Byte)
  /-- The field `udpBlockCipher`; `none` is the nil interface. -/
  udpBlockCipher : Option (List Byte)
  /-- The field `iPSK`. -/
  iPSK : List Byte
  /-- The field `uPSKHash`. -/
  uPSKHash : GoMap (List Byte) U
  /-- The field `uDestination`. -/
  uDestination : GoMap U A
  /-- The field `uCipher`; a block cipher is represented by its key. -/
  uCipher : GoMap U (List Byte)

/-- The three maps that `UpdateUsers` builds. -/
structure UserMaps (U A : Type) where
  /-- The local `uPSKHash`. -/
  uPSKHash : GoMap (List Byte) U
  /-- The local `uDestination`. -/
  uDestination : GoMap U A
  /-- The local `uCipher`. -/
  uCipher : GoMap U (List Byte)

/-- The 16-byte array `hash` of `UpdateUsers`: `copy(hash[:], hash512[:])`. -/
def identityHash (P : Primitives) (key : List Byte) : List Byte :=
  copyAt (List.replicate aesBlockSize 0) 0 (P.blake3Sum512 key)

/-- The loop of `Relay.UpdateUsers`; iteration `i` sees the tails of the three lists
from index `i`, so `keyList[i]` and `destinationList[i]` are their heads and a
missing head is Go's index-out-of-range panic. -/
def UpdateUsers.loop {U A : Type} [DecidableEq U] (P : Primitives) (s : Relay U A) :
    List U → List (List Byte) → List A → UserMaps U A → Except Error (UserMaps U A)
  | [], _, _, m => .ok m
  | _ :: _, [], _, _ => .error (.panic "index out of range")
  | _ :: _, _ :: _, [], _ => .error (.panic "index out of range")
  | user :: users, key :: keys, destination :: destinations, m =>
    if key.length < s.keySaltLength then .error .ErrBadKey
    else
      let key := if key.length > s.keySaltLength then P.Key key s.keySaltLength else key
      let hash := identityHash P key
      match s.blockConstructor key with
      | .error err => .error err
      | .ok block =>
        UpdateUsers.loop P s users keys destinations
          { uPSKHash := m.uPSKHash.set hash user
            uDestination := m.uDestination.set user destination
            uCipher := m.uCipher.set user block }

/-- The method `Relay.UpdateUsers`. -/
def Relay.UpdateUsers {U A : Type} [DecidableEq U] (P : Primitives) (s : Relay U A)
    (userList : List U) (keyList : List (List Byte)) (destinationList : List A) :
    Except Error (Relay U A) :=
  match UpdateUsers.loop P s userList keyList destinationList
      { uPSKHash := GoMap.empty, uDestination := GoMap.empty, uCipher := GoMap.empty } with
  | .error err => .error err
  | .ok m => .ok { s with uPSKHash := m.uPSKHash, uDestination := m.uDestination, uCipher := m.uCipher }

/-- The tail of `NewRelay` after the length check of the key: build the UDP block
cipher and return the relay. The field `iPSK` is not assigned by the source and keeps
its zero value. -/
def NewRelay.finish {U A : Type} (method : String) (keySaltLength : Nat)
    (blockConstructor : List Byte → Except Error (List Byte)) (psk : List Byte) :
    Except Error (Relay U A) :=
  match blockConstructor psk with
  | .error err => .error err
  | .ok block =>
    .ok { name := method
          keySaltLength := keySaltLength
          blockConstructor := blockConstructor
          udpBlockCipher := some block
          iPSK := []
          uPSKHash := GoMap.empty
          uDestination := GoMap.empty
          uCipher := GoMap.empty }

/-- The part of `NewRelay` after the `switch`, for the key length the method fixes. -/
def NewRelay.checkKey {U A : Type} (P : Primitives) (method : String) (keySaltLength : Nat)
    (psk : List Byte) : Except Error (Relay U A) :=
  if psk.length ≠ keySaltLength then
    if psk.length < keySaltLength then .error .ErrBadKey
    else NewRelay.finish method keySaltLength aesNewCipher (P.Key psk keySaltLength)
  else NewRelay.finish method keySaltLength aesNewCipher psk

/-- The constructor `NewRelay`. -/
def NewRelay {U A : Type} (P : Primitives) (method : String) (psk : List Byte) :
    Except Error (Relay U A) :=
  if method = "2022-blake3-aes-128-gcm" then NewRelay.checkKey P method 16 psk
  else if method = "2022-blake3-aes-256-gcm" then NewRelay.checkKey P method 32 psk
  else .error .ErrInvalid

/-- What the handler is called with by `Relay.newConnection`: the user stored in the
context, the metadata, and the bytes that the cached connection replays before the
raw connection. -/
structure ConnCall (U A : Type) where
  /-- The user in `shadowsocks.UserContext`. -/
  user : U
  /-- The metadata passed on. -/
  metadata : Metadata A
  /-- The buffer given to `bufio.NewCachedConn`. -/
  cached : List Byte

/-- The observable result of an operation: the calls it made to its collaborator, in
order, and the error it returned (`none` is nil). -/
structure Outcome (C : Type) where
  /-- The calls made. -/
  calls : List C
  /-- The returned error. -/
  err : Option Error

/-- The slice `keyMaterial` of `Relay.newConnection` once both copies are done. -/
def keyMaterial {U A : Type} (s : Relay U A) (requestSalt : List Byte) : List Byte :=
  let keyMaterial := List.replicate (s.keySaltLength * 2) (0 : Byte)
  let keyMaterial := copyAt keyMaterial 0 s.iPSK
  copyAt keyMaterial s.keySaltLength requestSalt

/-- The bytes of `identitySubkey` of `Relay.newConnection`. -/
def identitySubkey {U A : Type} (P : Primitives) (s : Relay U A) (requestSalt : List Byte) :
    List Byte :=
  P.blake3DeriveKey "shadowsocks 2022 identity subkey" (keyMaterial s requestSalt) s.keySaltLength

/-- The method `Relay.newConnection`. `read` is the result of the one
`requestHeader.ReadFrom(conn)`: an error or the bytes received; `handler` is the
return value of the handler's `NewConnection`. -/
def Relay.newConnection {U A : Type} [Inhabited A] (P : Primitives) (s : Relay U A)
    (handler : ConnCall U A → Option Error) (read : Except Error (List Byte))
    (metadata : Metadata A) : Outcome (ConnCall U A) :=
  match read with
  | .error err => ⟨[], some err⟩
  | .ok requestHeader =>
    if requestHeader.length < s.keySaltLength + aesBlockSize then ⟨[], some .ErrBadHeader⟩
    else
      let requestSalt := requestHeader.take s.keySaltLength
      let eiHeader := copyAt (List.replicate aesBlockSize 0) 0
        ((requestHeader.drop s.keySaltLength).take aesBlockSize)
      match s.blockConstructor (identitySubkey P s requestSalt) with
      | .error err => ⟨[], some err⟩
      | .ok b =>
        let eiHeader := P.aesDecrypt b eiHeader
        match s.uPSKHash eiHeader with
        | none => ⟨[], some .invalidRequest⟩
        | some user =>
          let requestHeader := copyAt requestHeader aesBlockSize (requestHeader.take s.keySaltLength)
          let requestHeader := requestHeader.drop aesBlockSize
          let metadata := { metadata with
            Protocol := "shadowsocks-relay"
            Destination := (s.uDestination user).getD default }
          let call : ConnCall U A := { user := user, metadata := metadata, cached := requestHeader }
          ⟨[call], handler call⟩

/-- What the UDP NAT is called with by `Relay.newPacket`. -/
structure PacketCall (U A : Type) where
  /-- The NAT key `sessionId`. -/
  sessionId : Nat
  /-- The buffer passed on. -/
  buffer : List Byte
  /-- The metadata passed on. -/
  metadata : Metadata A
  /-- The user placed in the context by the callback. -/
  user : U

/-- The method `Relay.newPacket`. The source does not check the length of the
datagram; the embedding is meant for buffers of at least two blocks. -/
def Relay.newPacket {U A : Type} [Inhabited A] (P : Primitives) (s : Relay U A)
    (buffer : List Byte) (metadata : Metadata A) : Outcome (PacketCall U A) :=
  match s.udpBlockCipher with
  | none => ⟨[], some (.panic "nil pointer dereference")⟩
  | some udpBlockCipher =>
    let packetHeader := P.aesDecrypt udpBlockCipher (buffer.take aesBlockSize)
    let buffer := copyAt buffer 0 packetHeader
    let sessionId := beUint64 packetHeader
    let eiHeader := P.aesDecrypt udpBlockCipher ((buffer.drop aesBlockSize).take aesBlockSize)
    let eiHeader := List.zipWith (fun a b => a ^^^ b) eiHeader packetHeader
    match s.uPSKHash eiHeader with
    | none => ⟨[], some .invalidRequest⟩
    | some user =>
      match s.uCipher user with
      | none => ⟨[], some (.panic "nil pointer dereference")⟩
      | some block =>
        let packetHeader := P.aesEncrypt block packetHeader
        let buffer := copyAt buffer 0 packetHeader
        let buffer := copyAt buffer aesBlockSize packetHeader
        let buffer := buffer.drop aesBlockSize
        let metadata := { metadata with
          Protocol := "shadowsocks-relay"
          Destination := (s.uDestination user).getD default }
        ⟨[{ sessionId := sessionId, buffer := buffer, metadata := metadata, user := user }], none⟩

/-! ## The stream-cipher client of `shadowstream/protocol.go` -/

/-- The primitives of external libraries used by the stream methods, over a type `σ` of
cipher states (`cipher.Stream`). The constructors take a key and an initialisation
vector or nonce of the right lengths; `Key` is the legacy key derivation
`shadowsocks.Key` and `Kdf` is `shadowaead.Kdf`. -/
structure StreamPrimitives (σ : Type) where
  /-- The stream `cipher.NewCTR(block, iv)` for the AES block cipher of the key. -/
  newCTR : List Byte → List Byte → σ
  /-- The stream `cipher.NewCFBEncrypter(block, iv)`. -/
  newCFBEncrypter : List Byte → List Byte → σ
  /-- The stream `cipher.NewCFBDecrypter(block, iv)`. -/
  newCFBDecrypter : List Byte → List Byte → σ
  /-- The digest `md5` of the bytes written. -/
  md5 : List Byte → List Byte
  /-- The stream `rc4.NewCipher(key)` for a key of 1 to 256 bytes. -/
  newRC4 : List Byte → σ
  /-- The stream `chacha20.NewUnauthenticatedCipher(key, nonce)` for valid sizes. -/
  newChaCha20 : List Byte → List Byte → σ
  /-- The method `XORKeyStream(dst, src)`: the output and the advanced state. -/
  xorKeyStream : σ → List Byte → List Byte × σ
  /-- The key derivation `shadowsocks.Key(password, keyLength)`. -/
  Key : List Byte → Nat → List Byte
  /-- The key derivation `shadowaead.Kdf(key, salt, keyLength)`. -/
  Kdf : List Byte → List Byte → Nat → List Byte

/-- The struct `Method` of package `shadowstream`. -/
structure Method (σ : Type) where
  /-- The field `name`. -/
  name : String
  /-- The field `keyLength`. -/
  keyLength : Nat
  /-- The field `saltLength`. -/
  saltLength : Nat
  /-- The field `encryptConstructor`. -/
  encryptConstructor : List Byte → List Byte → Except Error σ
  /-- The field `decryptConstructor`. -/
  decryptConstructor : List Byte → List Byte → Except Error σ
  /-- The field `key`. -/
  key : List Byte

/-- The function `blockStream(aes.NewCipher, streamCreator)`: `aes.NewCipher` checks the
key, and the stream creators of `crypto/cipher` panic on an initialisation vector whose
length is not the block size. -/
def blockStream {σ : Type} (blockCreator : List Byte → Except Error (List Byte))
    (streamCreator : List Byte → List Byte → σ) (key iv : List Byte) : Except Error σ :=
  match blockCreator key with
  | .error err => .error err
  | .ok block =>
    if iv.length ≠ aesBlockSize then .error (.panic "IV length must equal block size")
    else .ok (streamCreator block iv)

/-- The constructor of `rc4-md5`: RC4 keyed by the MD5 digest of key and salt;
`rc4.NewCipher` rejects keys of less than 1 or more than 256 bytes. -/
def rc4md5Constructor {σ : Type} (S : StreamPrimitives σ) (key salt : List Byte) :
    Except Error σ :=
  let sum := S.md5 (key ++ salt)
  if sum.length < 1 ∨ sum.length > 256 then .error (.keySizeError sum.length)
  else .ok (S.newRC4 sum)

/-- The constructor `chacha20.NewUnauthenticatedCipher`: the key has 32 bytes and the
nonce 12 or 24. -/
def chacha20Constructor {σ : Type} (S : StreamPrimitives σ) (key salt : List Byte) :
    Except Error σ :=
  if key.length ≠ 32 then .error (.external "chacha20: wrong key size")
  else if salt.length ≠ 12 ∧ salt.length ≠ 24 then .error (.external "chacha20: wrong nonce size")
  else .ok (S.newChaCha20 key salt)

/-- The conversion `[]byte(password)`. -/
def stringBytes (s : String) : List Byte :=
  (s.data.flatMap String.utf8EncodeChar).map fun b => b.val

/-- The part of `shadowstream.New` after the `switch`: the choice of the key. -/
def New.withKey {σ : Type} (S : StreamPrimitives σ) (m : Method σ) (key : List Byte)
    (password : String) : Except Error (Method σ) :=
  if key.length = m.keyLength then .ok { m with key := key }
  else if key.length > 0 then .error .ErrBadKey
  else if password ≠ "" then .ok { m with key := S.Key (stringBytes password) m.keyLength }
  else .error .ErrMissingPassword

/-- The constructor `shadowstream.New`. -/
def New {σ : Type} (S : StreamPrimitives σ) (method : String) (key : List Byte)
    (password : String) : Except Error (Method σ) :=
  let mk (keyLength saltLength : Nat) (enc dec : List Byte → List Byte → Except Error σ) :=
    New.withKey S
      { name := method, keyLength := keyLength, saltLength := saltLength,
        encryptConstructor := enc, decryptConstructor := dec, key := [] } key password
  if method = "aes-128-ctr" then
    mk 16 aesBlockSize (blockStream aesNewCipher S.newCTR) (blockStream aesNewCipher S.newCTR)
  else if method = "aes-192-ctr" then
    mk 24 aesBlockSize (blockStream aesNewCipher S.newCTR) (blockStream aesNewCipher S.newCTR)
  else if method = "aes-256-ctr" then
    mk 32 aesBlockSize (blockStream aesNewCipher S.newCTR) (blockStream aesNewCipher S.newCTR)
  else if method = "aes-128-cfb" then
    mk 16 aesBlockSize (blockStream aesNewCipher S.newCFBEncrypter)
      (blockStream aesNewCipher S.newCFBDecrypter)
  else if method = "aes-192-cfb" then
    mk 24 aesBlockSize (blockStream aesNewCipher S.newCFBEncrypter)
      (blockStream aesNewCipher S.newCFBDecrypter)
  else if method = "aes-256-cfb" then
    mk 32 aesBlockSize (blockStream aesNewCipher S.newCFBEncrypter)
      (blockStream aesNewCipher S.newCFBDecrypter)
  else if method = "rc4-md5" then
    mk 16 0 (rc4md5Constructor S) (rc4md5Constructor S)
  else if method = "chacha20-ietf" then
    mk 32 12 (chacha20Constructor S) (chacha20Constructor S)
  else if method = "xchacha20" then
    mk 32 24 (chacha20Constructor S) (chacha20Constructor S)
  else .error .ErrInvalid

/-- The struct `clientConn`; the embedded `net.Conn` is external and appears as the
inputs and outputs of the operations. -/
structure clientConn (σ A : Type) where
  /-- The field `method`. -/
  method : Method σ
  /-- The field `destination`. -/
  destination : A
  /-- The field `readStream`; `none` is nil. -/
  readStream : Option σ
  /-- The field `writeStream`; `none` is nil. -/
  writeStream : Option σ

/-- The connection made by `Method.DialEarlyConn`. -/
def Method.DialEarlyConn {σ A : Type} (m : Method σ) (destination : A) : clientConn σ A :=
  { method := m, destination := destination, readStream := none, writeStream := none }

/-- The result of a write operation of the client: the connection afterwards, the
arguments of the calls of `Conn.Write` it made, in order, the count `n` and the error. -/
structure WriteResult (σ A : Type) where
  /-- The connection after the operation. -/
  conn : clientConn σ A
  /-- The byte strings passed to `Conn.Write`. -/
  written : List (List Byte)
  /-- The returned count. -/
  n : Nat
  /-- The returned error. -/
  err : Option Error

/-- The method `clientConn.writeRequest`. `addrPort destination` is what
`M.SocksaddrSerializer.WriteAddrPort` writes (`AddrPortLen` is its length), `rand n` is
what `rand.Reader` supplies for a read of `n` bytes, and `connWrite` is the error, if
any, of `Conn.Write`. The buffer is made with exactly the room for the three parts. -/
def clientConn.writeRequest {σ A : Type} (S : StreamPrimitives σ) (addrPort : A → List Byte)
    (rand : Nat → List Byte) (connWrite : List Byte → Option Error) (c : clientConn σ A)
    (payload : List Byte) : WriteResult σ A :=
  let salt := copyAt (List.replicate c.method.keyLength 0) 0 (rand c.method.keyLength)
  let _key := S.Kdf c.method.key salt c.method.keyLength
  match c.method.encryptConstructor c.method.key salt with
  | .error err => ⟨c, [], 0, some err⟩
  | .ok writer =>
    let buffer := salt ++ addrPort c.destination
    let buffer := buffer ++ payload
    match connWrite buffer with
    | some err => ⟨c, [buffer], 0, some err⟩
    | none => ⟨{ c with writeStream := some writer }, [buffer], 0, none⟩

/-- The method `clientConn.Write`. -/
def clientConn.Write {σ A : Type} (S : StreamPrimitives σ) (addrPort : A → List Byte)
    (rand : Nat → List Byte) (connWrite : List Byte → Option Error) (c : clientConn σ A)
    (p : List Byte) : WriteResult σ A :=
  match c.writeStream with
  | none =>
    let r := c.writeRequest S addrPort rand connWrite p
    match r.err with
    | none => { r with n := p.length }
    | some _ => r
  | some writeStream =>
    let (p, writeStream) := S.xorKeyStream writeStream p
    let c := { c with writeStream := some writeStream }
    match connWrite p with
    | some err => ⟨c, [p], 0, some err⟩
    | none => ⟨c, [p], p.length, none⟩

/-- The method `clientConn.readResponse`. `input` holds the bytes the connection will
still deliver; the result carries the connection afterwards, the bytes left, and the
error. `io.ReadFull` fails when fewer bytes than asked for arrive. -/
def clientConn.readResponse {σ A : Type} (S : StreamPrimitives σ) (c : clientConn σ A)
    (input : List Byte) : clientConn σ A × List Byte × Option Error :=
  match c.readStream with
  | some _ => (c, input, none)
  | none =>
    if input.length < c.method.keyLength then
      (c, [], some (.external (if input.length = 0 then "EOF" else "unexpected EOF")))
    else
      let salt := input.take c.method.keyLength
      let input := input.drop c.method.keyLength
      let key := S.Kdf c.method.key salt c.method.keyLength
      match c.method.decryptConstructor key salt with
      | .error err => (c, input, some err)
      | .ok readStream => ({ c with readStream := some readStream }, input, none)

/-- The method `clientConn.Read` for a buffer of `pLen` bytes, when the connection
delivers at most `chunk` bytes to one `Conn.Read`: the connection afterwards, the bytes
left, the bytes placed in `p`, and the error. -/
def clientConn.Read {σ A : Type} (S : StreamPrimitives σ) (c : clientConn σ A)
    (input : List Byte) (pLen chunk : Nat) :
    clientConn σ A × List Byte × List Byte × Option Error :=
  match c.readResponse S input with
  | (c, input, some err) => (c, input, [], some err)
  | (c, input, none) =>
    match c.readStream with
    | none => (c, input, [], some (.panic "nil pointer dereference"))
    | some readStream =>
      if input.length = 0 then (c, input, [], some (.external "EOF"))
      else
        let got := input.take (min pLen chunk)
        let (out, readStream) := S.xorKeyStream readStream got
        ({ c with readStream := some readStream }, input.drop (min pLen chunk), out, none)

/-- A small instance of the stream primitives: the state is a starting byte and a
position, and byte `i` of the key stream is the starting byte plus `i` plus one. -/
def toyStream : StreamPrimitives (Byte × Nat) where
  newCTR key iv := ((key ++ iv).foldl (· + ·) 0, 0)
  newCFBEncrypter key iv := ((key ++ iv).foldl (· + ·) 1, 0)
  newCFBDecrypter key iv := ((key ++ iv).foldl (· + ·) 1, 0)
  md5 x := padTo 16 (x.map (· + 5))
  newRC4 key := (key.foldl (· + ·) 2, 0)
  newChaCha20 key nonce := ((key ++ nonce).foldl (· + ·) 3, 0)
  xorKeyStream st data :=
    (data.enum.map (fun ib => ib.2 ^^^ (st.1 + Fin.ofNat (st.2 + ib.1) + 1)),
      (st.1, st.2 + data.length))
  Key password n := padTo n password
  Kdf key salt n := padTo n (xorBytes key salt)

/-- A stand-in for the serialisation of a destination: type byte, length, name, port 443. -/
def exampleAddrPort (d : String) : List Byte :=
  [3, Fin.ofNat d.length] ++ stringBytes d ++ [1, 187]

/-- A random source that supplies the byte 42. -/
def exampleRand (n : Nat) : List Byte := List.replicate n 42

/-- A connection whose writes succeed. -/
def exampleConnWrite (_ : List Byte) : Option Error := none

/-- The method `aes-128-ctr` over the small stream primitives, with a key of 16 bytes. -/
def exampleCtrMethod : Method (Byte × Nat) :=
  { name := "aes-128-ctr", keyLength := 16, saltLength := 16,
    encryptConstructor := blockStream aesNewCipher toyStream.newCTR,
    decryptConstructor := blockStream aesNewCipher toyStream.newCTR,
    key := List.replicate 16 1 }

/-- The method `rc4-md5` over the small stream primitives, with the password "test". -/
def exampleRc4Method : Method (Byte × Nat) :=
  { name := "rc4-md5", keyLength := 16, saltLength := 0,
    encryptConstructor := rc4md5Constructor toyStream,
    decryptConstructor := rc4md5Constructor toyStream,
    key := toyStream.Key (stringBytes "test") 16 }

/-- The method `chacha20-ietf` over the small stream primitives, with a key of 32 bytes. -/
def exampleChaChaMethod : Method (Byte × Nat) :=
  { name := "chacha20-ietf", keyLength := 32, saltLength := 12,
    encryptConstructor := chacha20Constructor toyStream,
    decryptConstructor := chacha20Constructor toyStream,
    key := List.replicate 32 1 }

/-! ## The TLS-record reframer of `shadowaead_2022/encrypted_stream.go` -/

/-- The constant `recordTypeHandshake`. -/
def recordTypeHandshake : Byte := 22

/-- The constant `recordTypeApplicationData`. -/
def recordTypeApplicationData : Byte := 23

/-- Modelled from the spec: the constant `Overhead` of package `shadowaead` is not among
the sources; the tag of an AEAD chunk has 16 bytes. -/
def Overhead : Nat := 16

/-- The constant `tlsEncryptedLengthChunkLength`. -/
def tlsEncryptedLengthChunkLength : Nat := 5 + Overhead

/-- The loop of `readTLSChunkEnd` from position `index`; every turn but the last moves
forward by at least five bytes, so `len(payload) + 1` turns are enough. -/
def readTLSChunkEnd.loop (payload : List Byte) : Nat → Nat → Nat
  | 0, index => index
  | fuel + 1, index =>
    let pLen := payload.length
    if index < pLen then
      if pLen - index < 5 then index
      else
        let dataLen := beUint16 ((payload.drop (index + 3)).take 2)
        let nextIndex := index + 5 + dataLen
        if nextIndex > pLen then index
        else readTLSChunkEnd.loop payload fuel nextIndex
    else index

/-- The function `readTLSChunkEnd`. -/
def readTLSChunkEnd (payload : List Byte) : Nat :=
  readTLSChunkEnd.loop payload (payload.length + 1) 0

/-- A keyed AEAD (`cipher.AEAD` with the additional data nil); the nonce is the value
of the 12-byte little-endian counter. -/
structure AEAD where
  /-- The method `Seal(dst, nonce, plaintext, nil)`: what it appends to `dst`. -/
  Seal : Nat → List Byte → List Byte
  /-- The method `Open(dst, nonce, ciphertext, nil)`: what it appends to `dst`, or
  `none` when authentication fails. -/
  Open : Nat → List Byte → Option (List Byte)

/-- Modelled from the spec: `increaseNonce` of package `shadowaead` is not among the
sources; the nonce "increments by one (little-endian integer) after each AEAD
operation", here on the value of the 12-byte counter. -/
def increaseNonce (nonce : Nat) : Nat := (nonce + 1) % 2 ^ 96

/-- Modelled from the spec: `shadowaead.Writer.WriteChunk(buffer, chunk)` is not among
the sources; it seals `chunk` under the current nonce as one AEAD chunk appended to
`buffer` and increments the nonce. Growing the buffer beyond its capacity `cap` panics. -/
def WriteChunk (aead : AEAD) (cap : Nat) (nonce : Nat) (buffer chunk : List Byte) :
    Except Error (List Byte × Nat) :=
  let bb := aead.Seal nonce chunk
  if buffer.length + bb.length > cap then .error (.panic "buffer overflow")
  else .ok (buffer ++ bb, increaseNonce nonce)

/-- Modelled from the spec: `shadowaead.Reader.ReadChunk(buffer, chunk)` is not among
the sources; it decrypts the pre-staged slice `chunk` under the current nonce, appends
the plaintext to `buffer` and increments the nonce, and fails when the authenticator
does. -/
def ReadChunk (aead : AEAD) (cap : Nat) (nonce : Nat) (buffer chunk : List Byte) :
    Except Error (List Byte × Nat) :=
  match aead.Open nonce chunk with
  | none => .error (.external "cipher: message authentication failed")
  | some bb =>
    if buffer.length + bb.length > cap then .error (.panic "buffer overflow")
    else .ok (buffer ++ bb, increaseNonce nonce)

/-- The function `io.ReadFull` on a stream that will deliver `input` and then end:
the `n` bytes read and the bytes left, or an error when fewer than `n` arrive. -/
def readFull (input : List Byte) (n : Nat) : Except Error (List Byte × List Byte) :=
  if input.length < n then
    .error (.external (if input.length = 0 then "EOF" else "unexpected EOF"))
  else .ok (input.take n, input.drop n)

/-- The loop of `TLSEncryptedStreamWriter.loopOut`, for the bytes `input` that the pipe
delivers before it is closed, from the nonce of the upstream writer; `cap` is the
capacity of the buffer of the upstream writer and `rawWrite` the error, if any, of the
write to the underlying writer. The result lists the arguments of the calls of
`raw.Write` and the error that ended the loop. Every turn takes at least five bytes of
the input, so `len(input) + 1` turns are enough. -/
def TLSEncryptedStreamWriter.loop (aead : AEAD) (cap : Nat)
    (rawWrite : List Byte → Option Error) : Nat → Nat → List Byte → Outcome (List Byte)
  | 0, _, _ => ⟨[], none⟩
  | fuel + 1, nonce, input =>
    match readFull input 5 with
    | .error err => ⟨[], some err⟩
    | .ok (data, input) =>
      let recordType := data.headD 0
      let recordLen := beUint16 ((data.drop 3).take 2)
      match WriteChunk aead cap nonce [] data with
      | .error err => ⟨[], some err⟩
      | .ok (buffer, nonce) =>
        let emit (buffer : List Byte) (nonce : Nat) (input : List Byte) :
            Outcome (List Byte) :=
          match rawWrite buffer with
          | some err => ⟨[buffer], some err⟩
          | none =>
            let rest := TLSEncryptedStreamWriter.loop aead cap rawWrite fuel nonce input
            ⟨buffer :: rest.calls, rest.err⟩
        if recordType ≠ recordTypeApplicationData then
          if tlsEncryptedLengthChunkLength + recordLen > cap then
            ⟨[], some (.panic "slice bounds out of range")⟩
          else
            match readFull input recordLen with
            | .error err => ⟨[], some err⟩
            | .ok (chunk, input) =>
              match WriteChunk aead cap nonce buffer chunk with
              | .error err => ⟨[], some err⟩
              | .ok (buffer, nonce) => emit buffer nonce input
        else
          if buffer.length + recordLen > cap then
            ⟨[], some (.panic "slice bounds out of range")⟩
          else
            match readFull input recordLen with
            | .error err => ⟨[], some err⟩
            | .ok (chunk, input) => emit (buffer ++ chunk) nonce input

/-- The method `TLSEncryptedStreamWriter.loopOut`. -/
def TLSEncryptedStreamWriter.loopOut (aead : AEAD) (cap : Nat)
    (rawWrite : List Byte → Option Error) (nonce : Nat) (input : List Byte) :
    Outcome (List Byte) :=
  TLSEncryptedStreamWriter.loop aead cap rawWrite (input.length + 1) nonce input

/-- The state of a `TLSEncryptedStreamReader`: the nonce of the upstream reader, the
unread bytes of its buffer, and the bytes the underlying reader will still deliver. -/
structure TLSEncryptedStreamReader where
  /-- The nonce of the upstream reader. -/
  nonce : Nat
  /-- The unread bytes of `buffer`. -/
  buffer : List Byte
  /-- The bytes that `raw` will deliver before it ends. -/
  raw : List Byte

/-- The method `Buffer.Read` for a destination of `pLen` bytes: the bytes left in the
buffer, the bytes copied and the error; an empty buffer gives `io.EOF`. -/
def bufferRead (buffer : List Byte) (pLen : Nat) : List Byte × List Byte × Option Error :=
  if buffer.length = 0 then ([], [], some (.external "EOF"))
  else (buffer.drop pLen, buffer.take pLen, none)

/-- The method `TLSEncryptedStreamReader.Read` for a destination of `pLen` bytes: the
reader afterwards, the bytes placed in `p`, and the error. -/
def TLSEncryptedStreamReader.Read (aead : AEAD) (cap : Nat) (r : TLSEncryptedStreamReader)
    (pLen : Nat) : TLSEncryptedStreamReader × List Byte × Option Error :=
  let finish (nonce : Nat) (buffer raw : List Byte) :
      TLSEncryptedStreamReader × List Byte × Option Error :=
    let (buffer, out, err) := bufferRead buffer pLen
    ({ nonce := nonce, buffer := buffer, raw := raw }, out, err)
  if r.buffer.length ≠ 0 then finish r.nonce r.buffer r.raw
  else
    match readFull r.raw tlsEncryptedLengthChunkLength with
    | .error err => ({ r with raw := [] }, [], some err)
    | .ok (chunk, raw) =>
      match ReadChunk aead cap r.nonce [] chunk with
      | .error err => ({ r with raw := raw }, [], some err)
      | .ok (data, nonce) =>
        let recordType := data.headD 0
        let recordLen := beUint16 ((data.drop 3).take 2)
        if recordType = recordTypeApplicationData then
          if data.length + recordLen > cap then
            ({ nonce := nonce, buffer := data, raw := raw }, [],
              some (.panic "slice bounds out of range"))
          else
            match readFull raw recordLen with
            | .error err => ({ nonce := nonce, buffer := data, raw := [] }, [], some err)
            | .ok (chunk, raw) => finish nonce (data ++ chunk) raw
        else
          if 5 + recordLen + Overhead > cap then
            ({ nonce := nonce, buffer := data, raw := raw }, [],
              some (.panic "slice bounds out of range"))
          else
            match readFull raw (recordLen + Overhead) with
            | .error err => ({ nonce := nonce, buffer := data, raw := [] }, [], some err)
            | .ok (chunk, raw) =>
              match ReadChunk aead cap nonce data chunk with
              | .error err => ({ nonce := nonce, buffer := data, raw := raw }, [], some err)
              | .ok (buffer, nonce) => finish nonce buffer raw

/-- A TLS record: `type(1) || version(2) || length(2) || data(length)`. -/
structure TLSRecord where
  /-- The record type. -/
  recordType : Byte
  /-- The first byte of the version. -/
  versionMajor : Byte
  /-- The second byte of the version. -/
  versionMinor : Byte
  /-- The data, of less than 65536 bytes. -/
  data : List Byte

/-- The bytes of a record on the wire. -/
def TLSRecord.bytes (r : TLSRecord) : List Byte :=
  [r.recordType, r.versionMajor, r.versionMinor, Fin.ofNat (r.data.length / 256),
    Fin.ofNat (r.data.length % 256)] ++ r.data

/-- The byte strings that are a concatenation of zero or more complete TLS records:
a 5-byte header whose bytes 3 and 4 are the big-endian length of the data, followed by
exactly that many bytes of data. -/
inductive TLSRecords : List Byte → Prop
  | nil : TLSRecords []
  | cons (header data rest : List Byte) : header.length = 5 →
      data.length = beUint16 ((header.drop 3).take 2) → TLSRecords rest →
      TLSRecords (header ++ data ++ rest)

/-- The five bytes of the header of a record. -/
def TLSRecord.header (r : TLSRecord) : List Byte :=
  [r.recordType, r.versionMajor, r.versionMinor, Fin.ofNat (r.data.length / 256),
    Fin.ofNat (r.data.length % 256)]

/-- What the AEAD contract gives: opening a sealed chunk under the same nonce returns
the plaintext, and sealing adds `Overhead` bytes. -/
def AEAD.Sound (aead : AEAD) : Prop :=
  (∀ nonce x, aead.Open nonce (aead.Seal nonce x) = some x) ∧
  (∀ nonce x, (aead.Seal nonce x).length = x.length + Overhead)

/-- The reframed form of one record under the nonce `nonce`, in the words of the
specification: one AEAD chunk framing the 5-byte header, then the data as they are for
`application_data`, and one AEAD chunk of the data otherwise. -/
def TLSRecord.wire (aead : AEAD) (nonce : Nat) (r : TLSRecord) : List Byte :=
  aead.Seal nonce r.header ++
    (if r.recordType = recordTypeApplicationData then r.data
     else aead.Seal (increaseNonce nonce) r.data)

/-- The nonce after one record: one AEAD operation for `application_data`, two
otherwise. -/
def TLSRecord.nextNonce (nonce : Nat) (r : TLSRecord) : Nat :=
  if r.recordType = recordTypeApplicationData then increaseNonce nonce
  else increaseNonce (increaseNonce nonce)

/-- The reframed forms of a sequence of records, from the nonce `nonce` on. -/
def wireAll (aead : AEAD) : Nat → List TLSRecord → List (List Byte)
  | _, [] => []
  | nonce, r :: rs => r.wire aead nonce :: wireAll aead (r.nextNonce nonce) rs

/-- The nonce after a sequence of records. -/
def nonceAfter : Nat → List TLSRecord → Nat
  | nonce, [] => nonce
  | nonce, r :: rs => nonceAfter (r.nextNonce nonce) rs

/-- The length of the data announced by the header at the start of a byte string: the
big-endian value of its bytes 3 and 4. -/
def recordDataLen (q : List Byte) : Nat := beUint16 ((q.drop 3).take 2)

/-- Successive calls of `TLSEncryptedStreamReader.Read`, one for each length of
destination in the list: the reader afterwards and what each call returned. -/
def TLSEncryptedStreamReader.reads (aead : AEAD) (cap : Nat) :
    TLSEncryptedStreamReader → List Nat →
      TLSEncryptedStreamReader × List (List Byte × Option Error)
  | r, [] => (r, [])
  | r, pLen :: pLens =>
    let (r, out, err) := r.Read aead cap pLen
    let (r, outs) := TLSEncryptedStreamReader.reads aead cap r pLens
    (r, (out, err) :: outs)

/-- Calls of `TLSEncryptedStreamReader.Read` with destinations of `pLen` bytes, repeated
until one returns an error or `fuel` calls are made: the bytes received, in order. -/
def TLSEncryptedStreamReader.drain (aead : AEAD) (cap pLen : Nat) :
    Nat → TLSEncryptedStreamReader → List Byte
  | 0, _ => []
  | fuel + 1, r =>
    match r.Read aead cap pLen with
    | (r, out, none) => out ++ TLSEncryptedStreamReader.drain aead cap pLen fuel r
    | (_, out, some _) => out

/-- A small AEAD: the tag is sixteen copies of the low byte of the nonce plus the
number of bytes sealed. -/
def toyAEAD : AEAD where
  Seal nonce plaintext :=
    plaintext.map (· + 1) ++ List.replicate 16 (Fin.ofNat (nonce + plaintext.length))
  Open nonce ciphertext :=
    if 16 ≤ ciphertext.length ∧ ciphertext.drop (ciphertext.length - 16) =
        List.replicate 16 (Fin.ofNat (nonce + (ciphertext.length - 16))) then
      some ((ciphertext.take (ciphertext.length - 16)).map (· - 1))
    else none

/-! ## Specification-side notions for the relay -/

/-- The key that `NewRelay` and `UpdateUsers` go on with for a given pre-shared key
that is not too short: the key itself when it has exactly `keySaltLength` bytes, its
key stretch when it is longer. -/
def effectiveKey (P : Primitives) (keySaltLength : Nat) (psk : List Byte) : List Byte :=
  if psk.length > keySaltLength then P.Key psk keySaltLength else psk

/-- The states a relay built by `NewRelay(method, psk)` can be in: the state just
built, and the state after a successful `UpdateUsers` from such a state (a failed
`UpdateUsers` leaves the state as it was). -/
inductive Reachable {U A : Type} [DecidableEq U] (P : Primitives) (method : String)
    (psk : List Byte) : Relay U A → Prop
  | new {s : Relay U A} : NewRelay P method psk = .ok s → Reachable P method psk s
  | update {s t : Relay U A} (userList : List U) (keyList : List (List Byte))
      (destinationList : List A) :
      Reachable P method psk s → s.UpdateUsers P userList keyList destinationList = .ok t →
      Reachable P method psk t

/-- Successive assignments `m[k] = v` for the pairs of a list, in order. -/
def GoMap.setAll {K V : Type} [DecidableEq K] (m : GoMap K V) (l : List (K × V)) : GoMap K V :=
  l.foldl (fun m kv => m.set kv.1 kv.2) m

/-- The rows `(user, effective key, destination)` that a run of the loop of
`UpdateUsers` over three lists goes through. -/
def userRows {U A : Type} (P : Primitives) (keySaltLength : Nat) :
    List U → List (List Byte) → List A → List (U × List Byte × A)
  | user :: users, key :: keys, destination :: destinations =>
    (user, effectiveKey P keySaltLength key, destination) ::
      userRows P keySaltLength users keys destinations
  | _, _, _ => []

/-- The maps after the assignments of the loop of `UpdateUsers` for a list of rows. -/
def UserMaps.applyRows {U A : Type} [DecidableEq U] (P : Primitives) (m : UserMaps U A)
    (rows : List (U × List Byte × A)) : UserMaps U A :=
  { uPSKHash := m.uPSKHash.setAll (rows.map fun r => (identityHash P r.2.1, r.1))
    uDestination := m.uDestination.setAll (rows.map fun r => (r.1, r.2.2))
    uCipher := m.uCipher.setAll (rows.map fun r => (r.1, r.2.1)) }

/-- What holds of every state of a relay built by `NewRelay(method, psk)`: the block
constructor is `aes.NewCipher`, the key length is the one of the method, the UDP block
cipher is keyed by the effective key, the field `iPSK` is empty, and every user found
through an identity hash has a block cipher and a destination. -/
def RelayInv {U A : Type} (P : Primitives) (method : String) (psk : List Byte)
    (s : Relay U A) : Prop :=
  s.blockConstructor = aesNewCipher ∧
  ((method = "2022-blake3-aes-128-gcm" ∧ s.keySaltLength = 16) ∨
    (method = "2022-blake3-aes-256-gcm" ∧ s.keySaltLength = 32)) ∧
  s.keySaltLength ≤ psk.length ∧
  s.udpBlockCipher = some (effectiveKey P s.keySaltLength psk) ∧
  s.iPSK = [] ∧
  ∀ (h : List Byte) (u : U), s.uPSKHash h = some u →
    (∃ key, s.uCipher u = some key) ∧ ∃ d, s.uDestination u = some d

/-- The sizes of the outputs of the primitives: a derived key has the length asked
for, the AES block operations map a block to a block, the key stretch returns the
length asked for, and the 512-bit digest has 64 bytes. -/
def Primitives.WellSized (P : Primitives) : Prop :=
  (∀ c m n, (P.blake3DeriveKey c m n).length = n) ∧
  (∀ key block, block.length = 16 → (P.aesEncrypt key block).length = 16) ∧
  (∀ key block, block.length = 16 → (P.aesDecrypt key block).length = 16) ∧
  (∀ psk n, (P.Key psk n).length = n) ∧
  (∀ x, (P.blake3Sum512 x).length = 64)

/-- The identity field of a request header as `Relay.newConnection` decrypts it: the
16 bytes after the salt, decrypted under the identity subkey the relay derives from the
salt. -/
def identityField {U A : Type} (P : Primitives) (s : Relay U A) (requestHeader : List Byte) :
    List Byte :=
  P.aesDecrypt (identitySubkey P s (requestHeader.take s.keySaltLength))
    ((requestHeader.drop s.keySaltLength).take aesBlockSize)

/-- A small instance of the primitives, with the right block and output lengths, on
which the embedding can be evaluated. -/
def toyPrimitives : Primitives where
  aesEncrypt key block := xorBytes block (padTo 16 key)
  aesDecrypt key block := xorBytes block (padTo 16 key)
  blake3Sum512 x := padTo 64 (x.map (· + 1))
  blake3DeriveKey _ m n := padTo n (m.map (· + 3))
  Key psk n := padTo n psk

/-- The plaintext of the packet header as `Relay.newPacket` computes it: the first
block of the datagram decrypted with the block cipher of key `key`. -/
def packetHeaderPlain (P : Primitives) (key : List Byte) (datagram : List Byte) : List Byte :=
  P.aesDecrypt key (datagram.take 16)

/-- The identity hash of a datagram as `Relay.newPacket` computes it: the second block
decrypted with the block cipher of key `key`, combined byte-wise by exclusive or with the
plaintext of the header. -/
def packetIdentity (P : Primitives) (key : List Byte) (datagram : List Byte) : List Byte :=
  xorBytes (P.aesDecrypt key ((datagram.drop 16).take 16)) (packetHeaderPlain P key datagram)

/-! ## Example data for the relay -/

/-- A relay key of 16 bytes. -/
def examplePsk : List Byte := List.replicate 16 7

/-- Another relay key of 16 bytes. -/
def examplePskB : List Byte := List.replicate 16 9

/-- The relay that `NewRelay` builds for `examplePsk` over the small primitives. -/
def exampleRelay : Relay String String :=
  { name := "2022-blake3-aes-128-gcm"
    keySaltLength := 16
    blockConstructor := aesNewCipher
    udpBlockCipher := some examplePsk
    iPSK := []
    uPSKHash := GoMap.empty
    uDestination := GoMap.empty
    uCipher := GoMap.empty }

/-- The relay that `NewRelay` builds for `examplePskB` over the small primitives. -/
def exampleRelayB : Relay String String :=
  { exampleRelay with udpBlockCipher := some examplePskB }

/-- Two users. -/
def exampleUsers : List String := ["alice", "bob"]

/-- Their keys, 16 bytes each. -/
def exampleKeys : List (List Byte) := [List.replicate 16 1, List.replicate 16 2]

/-- Their destinations. -/
def exampleDestinations : List String := ["d1.example:443", "d2.example:443"]

/-- The relay `exampleRelay` after `UpdateUsers` with the two users. -/
def exampleTable : Relay String String :=
  match exampleRelay.UpdateUsers toyPrimitives exampleUsers exampleKeys exampleDestinations with
  | .ok t => t
  | .error _ => exampleRelay

/-- A request header for the user "bob" over the small primitives: a salt of 16 bytes,
the encrypted identity field, and five more bytes. -/
def exampleRequest : List Byte :=
  List.replicate 16 5 ++ List.replicate 16 0 ++ [10, 20, 30, 40, 50]

/-- A datagram for the user "bob" over the small primitives: the encrypted header, the
encrypted identity field, and three more bytes. -/
def exampleDatagram : List Byte :=
  List.replicate 16 6 ++ List.replicate 16 5 ++ [1, 2, 3]

/-- The relay `exampleRelay` after `UpdateUsers` with two users that share one key. -/
def exampleCollision : Relay String String :=
  match exampleRelay.UpdateUsers toyPrimitives exampleUsers
      [List.replicate 16 1, List.replicate 16 1] exampleDestinations with
  | .ok t => t
  | .error _ => exampleRelay

/-- Three records: a handshake record, an application-data record, and an empty
handshake record. -/
def exampleRecords : List TLSRecord :=
  [⟨22, 3, 1, [1, 2, 3]⟩, ⟨23, 3, 3, [9, 9]⟩, ⟨22, 3, 3, []⟩]

/-- Metadata of an inbound connection. -/
def exampleMetadata : Metadata String :=
  { Protocol := "", Source := "client.example:50000", Destination := "" }

/-! ## Further notions for the reframer and the stream methods -/

/-- The constant `tlsVersion10`. -/
def tlsVersion10 : Nat := 0x0301

/-- The constant `tlsVersion11`. -/
def tlsVersion11 : Nat := 0x0302

/-- The constant `tlsVersion12`. -/
def tlsVersion12 : Nat := 0x0303

/-- The constant `tlsVersion13`. -/
def tlsVersion13 : Nat := 0x0304

/-- The version of a record: the big-endian value of bytes 1 and 2 of its header. -/
def TLSRecord.version (r : TLSRecord) : Nat := beUint16 [r.versionMajor, r.versionMinor]

/-- A handshake record whose version is 0x0505. -/
def exampleOddVersionRecord : TLSRecord := ⟨22, 5, 5, [1, 2, 3]⟩

/-- The variable `List` of package `shadowstream`. -/
def shadowstream.List : List String :=
  [ "aes-128-ctr",
    "aes-192-ctr",
    "aes-256-ctr",
    "aes-128-cfb",
    "aes-192-cfb",
    "aes-256-cfb",
    "rc4-md5",
    "chacha20-ietf",
    "xchacha20" ]

/-- The rows of the stream methods in the table of the specification: name, key
length, salt length. -/
def specStreamTable : List (String × Nat × Nat) :=
  [ ("aes-128-ctr", 16, 16), ("aes-192-ctr", 24, 16), ("aes-256-ctr", 32, 16),
    ("aes-128-cfb", 16, 16), ("aes-192-cfb", 24, 16), ("aes-256-cfb", 32, 16),
    ("rc4-md5", 16, 0), ("chacha20-ietf", 32, 12), ("xchacha20", 32, 24) ]

/-! ## The AEAD service of `shadowaead/service.go` -/

/-- Modelled from the spec: the constant `PacketLengthBufferSize` of package
`shadowaead` is not among the sources; a chunk starts with `enc_length(2 bytes)`. -/
def PacketLengthBufferSize : Nat := 2

/-- The fields of the struct `Method` of package `shadowaead` that `service.go` reads;
the constructor builds the AEAD of a key. -/
structure shadowaead.Method where
  /-- The field `name`. -/
  name : String
  /-- The field `keySaltLength`. -/
  keySaltLength : Nat
  /-- The field `constructor`. -/
  constructor : List Byte → Except Error AEAD
  /-- The field `key`. -/
  key : List Byte

/-- The struct `Service` of package `shadowaead`; the handler and the UDP NAT are
external and appear as the outputs of the operations. -/
structure shadowaead.Service where
  /-- The embedded `*Method`. -/
  Method : shadowaead.Method
  /-- The field `password`. -/
  password : String

/-- The functions that `service.go` calls and that are not among the sources, over a
type `A` of addresses and a type `R` of states of `shadowaead.Reader`. -/
structure shadowaead.Externals (A R : Type) where
  /-- The key derivation `Kdf(key, salt, out)` with `len(out)` as last argument. -/
  Kdf : List Byte → List Byte → Nat → List Byte
  /-- The calls `NewReader(conn, cipher, MaxPacketSize)` and
  `reader.ReadWithLengthChunk(lengthChunk)`, for the bytes the connection still
  delivers. -/
  ReadWithLengthChunk : AEAD → List Byte → List Byte → Except Error R
  /-- The call `M.SocksaddrSerializer.ReadAddrPort(reader)` on a reader. -/
  ReadAddrPortReader : R → Except Error (A × R)
  /-- The call `M.SocksaddrSerializer.ReadAddrPort(buffer)` on a buffer: the address
  and the bytes left in the buffer. -/
  ReadAddrPort : List Byte → Except Error (A × List Byte)
  /-- What `M.SocksaddrSerializer.WriteAddrPort` writes; `AddrPortLen` is its length. -/
  addrPort : A → List Byte

/-- The method `Buffer.ReadFullFrom(r, size)` on an empty buffer with room for `size`
bytes, for a stream that delivers `input` and then ends: the bytes now in the buffer,
the bytes left in the stream, and the error of `io.ReadFull`. -/
def bufferReadFullFrom (input : List Byte) (size : Nat) :
    List Byte × List Byte × Option Error :=
  if input.length < size then
    (input, [], some (.external (if input.length = 0 then "EOF" else "unexpected EOF")))
  else (input.take size, input.drop size, none)

/-- What the handler is called with by `Service.newConnection`: the reader of the
`serverConn` and the metadata. -/
structure shadowaead.ConnCall (A R : Type) where
  /-- The field `reader` of the `serverConn`. -/
  reader : R
  /-- The metadata passed on. -/
  metadata : Metadata A

/-- The method `Service.newConnection` of package `shadowaead`, for the bytes `input`
that the connection delivers before it ends. -/
def shadowaead.Service.newConnection {A R : Type} (E : shadowaead.Externals A R)
    (s : shadowaead.Service) (handler : shadowaead.ConnCall A R → Option Error)
    (input : List Byte) (metadata : Metadata A) : Outcome (shadowaead.ConnCall A R) :=
  let size := s.Method.keySaltLength + PacketLengthBufferSize + Overhead
  match bufferReadFullFrom input size with
  | (_, _, some err) => ⟨[], some (.cause err "read header")⟩
  | (header, input, none) =>
    if header.length < size then ⟨[], some .ErrBadHeader⟩
    else
      let key := E.Kdf s.Method.key (header.take s.Method.keySaltLength) s.Method.keySaltLength
      match s.Method.constructor key with
      | .error err => ⟨[], some err⟩
      | .ok readCipher =>
        match E.ReadWithLengthChunk readCipher (header.drop s.Method.keySaltLength) input with
        | .error err => ⟨[], some err⟩
        | .ok reader =>
          match E.ReadAddrPortReader reader with
          | .error err => ⟨[], some err⟩
          | .ok (destination, reader) =>
            let metadata := { metadata with Protocol := "shadowsocks", Destination := destination }
            let call : shadowaead.ConnCall A R := { reader := reader, metadata := metadata }
            ⟨[call], handler call⟩

/-- What the UDP NAT is called with by `Service.newPacket`. -/
structure shadowaead.PacketCall (A : Type) where
  /-- The NAT key `metadata.Source.AddrPort()`. -/
  key : A
  /-- The buffer passed on. -/
  buffer : List Byte
  /-- The metadata passed on. -/
  metadata : Metadata A

/-- The method `Service.newPacket` of package `shadowaead`. The nonce
`rw.ZeroBytes[:NonceSize]` is the counter value 0. -/
def shadowaead.Service.newPacket {A R : Type} (E : shadowaead.Externals A R)
    (s : shadowaead.Service) (buffer : List Byte) (metadata : Metadata A) :
    Outcome (shadowaead.PacketCall A) :=
  if buffer.length < s.Method.keySaltLength then ⟨[], some (.external "short buffer")⟩
  else
    let key := E.Kdf s.Method.key (buffer.take s.Method.keySaltLength) s.Method.keySaltLength
    match s.Method.constructor key with
    | .error err => ⟨[], some err⟩
    | .ok readCipher =>
      match readCipher.Open 0 (buffer.drop s.Method.keySaltLength) with
      | none => ⟨[], some (.external "cipher: message authentication failed")⟩
      | some packet =>
        let buffer := packet
        match E.ReadAddrPort buffer with
        | .error err => ⟨[], some err⟩
        | .ok (destination, buffer) =>
          let metadata := { metadata with Protocol := "shadowsocks", Destination := destination }
          ⟨[{ key := metadata.Source, buffer := buffer, metadata := metadata }], none⟩

/-- The method `serverPacketWriter.WritePacket`, for a buffer that holds the payload
and has the head room and rear room the writer announces. `rand n` is what `rand.Reader`
supplies for a read of `n` bytes and `sourceWrite` the error, if any, of
`source.WritePacket`; the result lists the datagrams passed to `source.WritePacket`. -/
def shadowaead.serverPacketWriter.WritePacket {A R : Type} (E : shadowaead.Externals A R)
    (rand : Nat → List Byte) (sourceWrite : List Byte → Option Error) (w : shadowaead.Method)
    (buffer : List Byte) (destination : A) : Outcome (List Byte) :=
  let headerLen := w.keySaltLength + (E.addrPort destination).length
  let buffer := List.replicate headerLen 0 ++ buffer
  let buffer := copyAt buffer 0 (copyAt (List.replicate w.keySaltLength 0) 0 (rand w.keySaltLength))
  let buffer := copyAt buffer w.keySaltLength (E.addrPort destination)
  let key := E.Kdf w.key (buffer.take w.keySaltLength) w.keySaltLength
  match w.constructor key with
  | .error err => ⟨[], some err⟩
  | .ok writeCipher =>
    let sealed := writeCipher.Seal 0 (buffer.drop w.keySaltLength)
    let buffer := (buffer.take w.keySaltLength ++ sealed).take (buffer.length + Overhead)
    ⟨[buffer], sourceWrite buffer⟩

/-! ## The method factory of `shadowimpl/fetcher.go` -/

/-- The result of `FetchMethod`: the value of `shadowsocks.NewNone()`, or a method of
one of the three packages. -/
inductive FetchedMethod (M1 M2 M3 : Type) where
  /-- The method `shadowsocks.NewNone()`, which performs no transformation. -/
  | none
  /-- A method of package `shadowstream`. -/
  | stream (m : M1)
  /-- A method of package `shadowaead`. -/
  | aead (m : M2)
  /-- A method of package `shadowaead_2022`. -/
  | aead2022 (m : M3)

/-- The function `FetchMethod`. The lists `shadowaead.List` and `shadowaead_2022.List`
and the constructors `shadowaead.New` and `shadowaead_2022.NewWithPassword` are not
among the sources and are parameters. -/
def FetchMethod {σ M2 M3 : Type} (S : StreamPrimitives σ) (aeadList aead2022List : List String)
    (aeadNew : String → List Byte → String → Except Error M2)
    (newWithPassword : String → String → Except Error M3) (method : String)
    (password : String) : Except Error (FetchedMethod (Method σ) M2 M3) :=
  if method = "none" ∨ method = "plain" ∨ method = "dummy" then .ok .none
  else if method ∈ shadowstream.List then
    match New S method [] password with
    | .error err => .error err
    | .ok m => .ok (.stream m)
  else if method ∈ aeadList then
    match aeadNew method [] password with
    | .error err => .error err
    | .ok m => .ok (.aead m)
  else if method ∈ aead2022List then
    match newWithPassword method password with
    | .error err => .error err
    | .ok m => .ok (.aead2022 m)
  else .error (.message ("shadowsocks: unsupported method " ++ method))

/-- The names of the AEAD methods in the table of the specification. -/
def specAeadList : List String :=
  ["aes-128-gcm", "aes-256-gcm", "chacha20-ietf-poly1305", "xchacha20-ietf-poly1305"]

/-- The names of the 2022 methods in the table of the specification. -/
def specAead2022List : List String :=
  ["2022-blake3-aes-128-gcm", "2022-blake3-aes-256-gcm"]

/-- Stand-ins for the functions outside the sources, over byte strings as addresses:
an address is written as its length followed by its bytes. -/
def toyExternals : shadowaead.Externals (List Byte) (List Byte) where
  Kdf key salt n := padTo n (xorBytes key salt)
  ReadWithLengthChunk _ lengthChunk rest := .ok (lengthChunk ++ rest)
  ReadAddrPortReader reader :=
    match reader with
    | [] => .error (.external "EOF")
    | n :: rest =>
      if rest.length < n.val then .error (.external "unexpected EOF")
      else .ok (rest.take n.val, rest.drop n.val)
  ReadAddrPort buffer :=
    match buffer with
    | [] => .error (.external "EOF")
    | n :: rest =>
      if rest.length < n.val then .error (.external "unexpected EOF")
      else .ok (rest.take n.val, rest.drop n.val)
  addrPort d := Fin.ofNat d.length :: d

/-- A method of package `shadowaead` with a key length of 16 over the small AEAD. -/
def exampleAeadMethod : shadowaead.Method :=
  { name := "aes-128-gcm", keySaltLength := 16, constructor := fun _ => .ok toyAEAD,
    key := List.replicate 16 1 }

/-- A service for `exampleAeadMethod`. -/
def exampleService : shadowaead.Service :=
  { Method := exampleAeadMethod, password := "test" }

/-- Metadata of an inbound connection or datagram, with byte strings as addresses. -/
def exampleByteMetadata : Metadata (List Byte) :=
  { Protocol := "", Source := [10, 0, 0, 1], Destination := [] }

/-! ## The 2022 multi-user service and its client, modelled from the specification -/

/-- Modelled from the spec: the key derivation of the 2022 methods, which is not among
the sources: `blake3-derive-key(context, material = PSK || salt)` producing exactly
`key_length` bytes. -/
def deriveSubkey (P : Primitives) (context : String) (keyLength : Nat) (psk salt : List Byte) :
    List Byte :=
  P.blake3DeriveKey context (psk ++ salt) keyLength

/-- Modelled from the spec: the two bytes of the big-endian length field of a chunk. -/
def chunkLength (n : Nat) : List Byte := [Fin.ofNat (n / 256), Fin.ofNat (n % 256)]

/-- Modelled from the spec: the AEAD writer of package `shadowaead` is not among the
sources; one chunk is `enc_length(2 bytes) || tag(16) || enc_payload(len bytes) ||
tag(16)`, the nonce starts at zero for the direction and increments by one after each
AEAD operation. This is the first chunk of a direction. -/
def writeFirstChunk (aead : AEAD) (payload : List Byte) : List Byte :=
  aead.Seal 0 (chunkLength payload.length) ++ aead.Seal (increaseNonce 0) payload

/-- Modelled from the spec: the AEAD reader of package `shadowaead` is not among the
sources; it reads exactly 2+16 bytes, decrypts the length, rejects a length whose high
two bits are set, reads exactly len+16 bytes and decrypts them, and fails when the
authenticator does or the stream ends in the middle of the chunk. The result is the
payload of the first chunk and the bytes left in the stream. -/
def readFirstChunk (aead : AEAD) (input : List Byte) : Except Error (List Byte × List Byte) :=
  match readFull input (PacketLengthBufferSize + Overhead) with
  | .error err => .error err
  | .ok (lengthChunk, input) =>
    match aead.Open 0 lengthChunk with
    | none => .error (.external "cipher: message authentication failed")
    | some lengthBytes =>
      let length := beUint16 lengthBytes
      if length ≥ 2 ^ 14 then .error (.message "bad length")
      else
        match readFull input (length + Overhead) with
        | .error err => .error err
        | .ok (chunk, input) =>
          match aead.Open (increaseNonce 0) chunk with
          | none => .error (.external "cipher: message authentication failed")
          | some payload => .ok (payload, input)

/-- Modelled from the spec: the struct `MultiService` of package `shadowaead_2022` is
not among the sources. It holds the key length of the method, the initial key iPSK, the
user table from the 16-byte identity hash (blake3-512 of the user key, truncated to the
AES block size) to the user, and the key of each user. -/
structure MultiService (U : Type) where
  /-- The key length of the method. -/
  keySaltLength : Nat
  /-- The initial key. -/
  iPSK : List Byte
  /-- The user table. -/
  uPSKHash : GoMap (List Byte) U
  /-- The key of each user. -/
  uPSK : GoMap U (List Byte)

/-- Modelled from the spec: the constructor `NewMultiService(method, iPSK, ...)` is not
among the sources. The key length is fixed by the method name; a key shorter than the
key length is an error and a longer one is hashed down by the key stretch. -/
def NewMultiService {U : Type} (P : Primitives) (method : String) (psk : List Byte) :
    Except Error (MultiService U) :=
  let mk (keySaltLength : Nat) : Except Error (MultiService U) :=
    if psk.length < keySaltLength then .error .ErrBadKey
    else .ok { keySaltLength := keySaltLength, iPSK := effectiveKey P keySaltLength psk,
               uPSKHash := GoMap.empty, uPSK := GoMap.empty }
  if method = "2022-blake3-aes-128-gcm" then mk 16
  else if method = "2022-blake3-aes-256-gcm" then mk 32
  else .error .ErrInvalid

/-- Modelled from the spec: the method `MultiService.UpdateUsers(userList, keyList)` is
not among the sources. A key shorter than the key length is an error, a longer one is
hashed down; the mappings are replaced as a single substitution, each user entered under
the identity hash of the user's key, later entries over earlier ones. -/
def MultiService.UpdateUsers {U : Type} [DecidableEq U] (P : Primitives) (s : MultiService U)
    (userList : List U) (keyList : List (List Byte)) : Except Error (MultiService U) :=
  if keyList.any (fun key => key.length < s.keySaltLength) then .error .ErrBadKey
  else
    .ok { s with
      uPSKHash := GoMap.empty.setAll ((userList.zip keyList).map fun uk =>
        (identityHash P (effectiveKey P s.keySaltLength uk.2), uk.1))
      uPSK := GoMap.empty.setAll ((userList.zip keyList).map fun uk =>
        (uk.1, effectiveKey P s.keySaltLength uk.2)) }

/-- Modelled from the spec: the client method of package `shadowaead_2022` is not among
the sources: the key length and the keys given to `New(method, pskList)`. -/
structure shadowaead_2022.Method where
  /-- The key length of the method. -/
  keySaltLength : Nat
  /-- The keys, the initial key first and the key of the user last. -/
  pskList : List (List Byte)

/-- Modelled from the spec: the constructor `New(method, pskList)` of package
`shadowaead_2022` is not among the sources. -/
def shadowaead_2022.New (method : String) (pskList : List (List Byte)) :
    Except Error shadowaead_2022.Method :=
  let mk (keySaltLength : Nat) : Except Error shadowaead_2022.Method :=
    if pskList.any (fun psk => psk.length ≠ keySaltLength) then .error .ErrBadKey
    else .ok { keySaltLength := keySaltLength, pskList := pskList }
  if method = "2022-blake3-aes-128-gcm" then mk 16
  else if method = "2022-blake3-aes-256-gcm" then mk 32
  else .error .ErrInvalid

/-- Modelled from the spec: the method `DialConn(conn, destination)` of the client is
not among the sources. For the keys `[iPSK, uPSK]` the request is
`salt || eih || rest`: a random salt of `key_length` bytes, the identity hash of the user
key encrypted with an AES block keyed by the identity subkey of iPSK and the salt, and
the AEAD framing under the session subkey of the user key and the salt, whose plaintext
begins with the destination address followed by the payload. The result is what is
written to the connection. -/
def shadowaead_2022.Method.DialConn {A : Type} (P : Primitives) (aeadOf : List Byte → AEAD)
    (addrPort : A → List Byte) (rand : Nat → List Byte) (m : shadowaead_2022.Method)
    (destination : A) (payload : List Byte) : Except Error (List Byte) :=
  match m.pskList with
  | [iPSK, uPSK] =>
    let salt := copyAt (List.replicate m.keySaltLength 0) 0 (rand m.keySaltLength)
    let identitySubkey :=
      deriveSubkey P "shadowsocks 2022 identity subkey" m.keySaltLength iPSK salt
    let eih := P.aesEncrypt identitySubkey (identityHash P uPSK)
    let sessionKey := deriveSubkey P "shadowsocks 2022 session subkey" m.keySaltLength uPSK salt
    .ok (salt ++ eih ++ writeFirstChunk (aeadOf sessionKey) (addrPort destination ++ payload))
  | _ => .error .ErrBadKey

/-- What the handler is called with by the multi-user service: the user, the metadata,
and the bytes of the first chunk after the destination address. -/
structure MultiConnCall (U A : Type) where
  /-- The user placed in the context. -/
  user : U
  /-- The metadata passed on. -/
  metadata : Metadata A
  /-- The payload that came with the request. -/
  payload : List Byte

/-- Modelled from the spec: the method `MultiService.NewConnection` is not among the
sources. It reads the salt and the encrypted identity header, derives the identity
subkey from iPSK and the salt, decrypts the header and looks up the user by that hash (a
miss is "invalid request"), derives the session key from the key of the user and the
salt, reads the first chunk through the AEAD reader, parses the destination address and
calls the handler with the user and that destination. -/
def MultiService.NewConnection {U A : Type} (P : Primitives) (aeadOf : List Byte → AEAD)
    (ReadAddrPort : List Byte → Except Error (A × List Byte)) (s : MultiService U)
    (handler : MultiConnCall U A → Option Error) (input : List Byte) (metadata : Metadata A) :
    Outcome (MultiConnCall U A) :=
  match readFull input (s.keySaltLength + aesBlockSize) with
  | .error _ => ⟨[], some .ErrBadHeader⟩
  | .ok (header, input) =>
    let salt := header.take s.keySaltLength
    let identitySubkey :=
      deriveSubkey P "shadowsocks 2022 identity subkey" s.keySaltLength s.iPSK salt
    let hash := P.aesDecrypt identitySubkey (header.drop s.keySaltLength)
    match s.uPSKHash hash with
    | none => ⟨[], some .invalidRequest⟩
    | some user =>
      match s.uPSK user with
      | none => ⟨[], some .invalidRequest⟩
      | some uPSK =>
        let sessionKey :=
          deriveSubkey P "shadowsocks 2022 session subkey" s.keySaltLength uPSK salt
        match readFirstChunk (aeadOf sessionKey) input with
        | .error err => ⟨[], some err⟩
        | .ok (plaintext, _) =>
          match ReadAddrPort plaintext with
          | .error err => ⟨[], some err⟩
          | .ok (destination, payload) =>
            let metadata := { metadata with Protocol := "shadowsocks", Destination := destination }
            let call : MultiConnCall U A :=
              { user := user, metadata := metadata, payload := payload }
            ⟨[call], handler call⟩

/-- The block operations, key derivation and digest fit together as the scheme needs:
decrypting an encrypted block under the same key returns the block. -/
def Primitives.BlockInverse (P : Primitives) : Prop :=
  ∀ key block : List Byte, block.length = 16 → P.aesDecrypt key (P.aesEncrypt key block) = block

/-- The multi-user service of the test: built for `examplePsk`, with the one user
"my user" whose key is sixteen bytes 2. -/
def exampleMultiService : MultiService String :=
  { keySaltLength := 16, iPSK := examplePsk,
    uPSKHash := GoMap.empty.setAll
      [(identityHash toyPrimitives (List.replicate 16 2), "my user")],
    uPSK := GoMap.empty.setAll [("my user", List.replicate 16 2)] }

/-! ## Lemmas on buffers and maps -/

theorem copyAt_length (dst : List Byte) (off : Nat) (src : List Byte) (h : off ≤ dst.length) :
    (copyAt dst off src).length = dst.length := by
  simp only [copyAt, List.length_append, List.length_take, List.length_drop]
  omega

theorem copyAt_zero_of_length_eq (dst src : List Byte) (h : src.length = dst.length) :
    copyAt dst 0 src = src := by
  simp [copyAt, ← h]

theorem copyAt_zero_head (dst src : List Byte) (h : src.length ≤ dst.length) :
    copyAt dst 0 src = src ++ dst.drop src.length := by
  simp [copyAt, List.take_of_length_le h]

theorem copyAt_exact (pre mid post src : List Byte) (h : src.length = mid.length) :
    copyAt (pre ++ mid ++ post) pre.length src = pre ++ src ++ post := by
  simp only [copyAt, List.length_append, List.append_assoc]
  rw [List.take_append_of_le_length (le_refl _), List.take_length]
  rw [List.take_of_length_le (by omega)]
  rw [show pre.length + src.length = pre.length + mid.length by omega]
  rw [← List.append_assoc pre mid post, ← List.length_append, List.drop_left]

theorem GoMap.set_same {K V : Type} [DecidableEq K] (m : GoMap K V) (k : K) (v : V) :
    m.set k v k = some v := by
  simp [GoMap.set]

theorem GoMap.set_other {K V : Type} [DecidableEq K] (m : GoMap K V) (k k' : K) (v : V)
    (h : k' ≠ k) : m.set k v k' = m k' := by
  simp [GoMap.set, h]

theorem GoMap.setAll_cons {K V : Type} [DecidableEq K] (m : GoMap K V) (kv : K × V)
    (l : List (K × V)) : m.setAll (kv :: l) = (m.set kv.1 kv.2).setAll l := rfl

/-- A key assigned nowhere in the list keeps its old value. -/
theorem GoMap.setAll_of_not_mem {K V : Type} [DecidableEq K] (l : List (K × V)) (m : GoMap K V)
    (k : K) (h : ∀ kv ∈ l, kv.1 ≠ k) : m.setAll l k = m k := by
  induction l generalizing m with
  | nil => rfl
  | cons a l ih =>
    rw [GoMap.setAll_cons, ih _ (fun kv hkv => h kv (List.mem_cons_of_mem _ hkv))]
    exact GoMap.set_other _ _ _ _ (fun e => h a (List.mem_cons_self _ _) e.symm)

/-- The last assignment to a key wins. -/
theorem GoMap.setAll_last {K V : Type} [DecidableEq K] (l : List (K × V)) (m : GoMap K V)
    (j : Nat) (k : K) (v : V) (hj : l[j]? = some (k, v))
    (hlast : ∀ (j' : Nat) (kv : K × V), j < j' → l[j']? = some kv → kv.1 ≠ k) :
    m.setAll l k = some v := by
  induction l generalizing m j with
  | nil => simp at hj
  | cons a l ih =>
    rw [GoMap.setAll_cons]
    cases j with
    | zero =>
      simp only [List.getElem?_cons_zero, Option.some.injEq] at hj
      subst hj
      rw [GoMap.setAll_of_not_mem]
      · exact GoMap.set_same _ _ _
      · intro kv hkv
        obtain ⟨i, hi⟩ := List.getElem?_of_mem hkv
        exact hlast (i + 1) kv (Nat.succ_pos _) (by simpa using hi)
    | succ j =>
      refine ih _ j (by simpa using hj) ?_
      intro j' kv hlt hkv
      exact hlast (j' + 1) kv (by omega) (by simpa using hkv)

/-- Every value found after the assignments is the old value of a key assigned nowhere,
or the value of the last assignment to the key. -/
theorem GoMap.setAll_eq_some {K V : Type} [DecidableEq K] (l : List (K × V)) (m : GoMap K V)
    (k : K) (v : V) (h : m.setAll l k = some v) :
    (m k = some v ∧ ∀ kv ∈ l, kv.1 ≠ k) ∨
    ∃ j : Nat, l[j]? = some (k, v) ∧
      ∀ (j' : Nat) (kv : K × V), j < j' → l[j']? = some kv → kv.1 ≠ k := by
  induction l generalizing m with
  | nil => exact Or.inl ⟨h, by simp⟩
  | cons a l ih =>
    rw [GoMap.setAll_cons] at h
    rcases ih _ h with ⟨hm, hno⟩ | ⟨j, hj, hlast⟩
    · by_cases hk : k = a.1
      · right
        refine ⟨0, ?_, ?_⟩
        · subst hk
          rw [GoMap.set_same] at hm
          simp only [Option.some.injEq] at hm
          simp [← hm]
        · intro j' kv hlt hkv
          cases j' with
          | zero => omega
          | succ j' =>
            exact hno kv (List.getElem?_mem (by simpa using hkv))
      · left
        rw [GoMap.set_other _ _ _ _ hk] at hm
        refine ⟨hm, ?_⟩
        intro kv hkv
        rcases List.mem_cons.1 hkv with rfl | hkv
        · exact fun e => hk e.symm
        · exact hno kv hkv
    · right
      refine ⟨j + 1, by simpa using hj, ?_⟩
      intro j' kv hlt hkv
      cases j' with
      | zero => omega
      | succ j' => exact hlast j' kv (by omega) (by simpa using hkv)

/-! ## The loop of `UpdateUsers` -/

theorem effectiveKey_length (P : Primitives) (k : Nat) (hKey : ∀ psk, (P.Key psk k).length = k)
    (psk : List Byte) (h : k ≤ psk.length) : (effectiveKey P k psk).length = k := by
  unfold effectiveKey
  split
  · exact hKey psk
  · omega

theorem aesNewCipher_ok (key : List Byte) (h : key.length = 16 ∨ key.length = 32) :
    aesNewCipher key = .ok key := by
  unfold aesNewCipher
  rw [if_pos]
  rcases h with h | h
  · exact Or.inl h
  · exact Or.inr (Or.inr h)

theorem aesNewCipher_eq_ok (key block : List Byte) (h : aesNewCipher key = .ok block) :
    block = key := by
  unfold aesNewCipher at h
  split at h
  · simpa using h.symm
  · simp at h

theorem userRows_getElem? {U A : Type} (P : Primitives) (k : Nat) (ul : List U)
    (kl : List (List Byte)) (dl : List A) (j : Nat) (r : U × List Byte × A)
    (h : (userRows P k ul kl dl)[j]? = some r) :
    ul[j]? = some r.1 ∧ (∃ key, kl[j]? = some key ∧ r.2.1 = effectiveKey P k key) ∧
      dl[j]? = some r.2.2 := by
  induction ul generalizing kl dl j with
  | nil => simp [userRows] at h
  | cons u ul ih =>
    cases kl with
    | nil => simp [userRows] at h
    | cons key kl =>
      cases dl with
      | nil => simp [userRows] at h
      | cons d dl =>
        cases j with
        | zero =>
          simp only [userRows, List.getElem?_cons_zero, Option.some.injEq] at h
          subst h
          simp
        | succ j =>
          simp only [userRows, List.getElem?_cons_succ] at h
          simpa using ih kl dl j h

theorem userRows_of_getElem? {U A : Type} (P : Primitives) (k : Nat) (ul : List U)
    (kl : List (List Byte)) (dl : List A) (j : Nat) (u : U) (key : List Byte) (d : A)
    (hu : ul[j]? = some u) (hkey : kl[j]? = some key) (hd : dl[j]? = some d) :
    (userRows P k ul kl dl)[j]? = some (u, effectiveKey P k key, d) := by
  induction ul generalizing kl dl j with
  | nil => simp at hu
  | cons u' ul ih =>
    cases kl with
    | nil => simp at hkey
    | cons key' kl =>
      cases dl with
      | nil => simp at hd
      | cons d' dl =>
        cases j with
        | zero =>
          simp only [List.getElem?_cons_zero, Option.some.injEq] at hu hkey hd
          subst hu hkey hd
          simp [userRows]
        | succ j =>
          simp only [List.getElem?_cons_succ] at hu hkey hd
          simpa [userRows] using ih kl dl j hu hkey hd

/-- A run of the loop that returns maps has made exactly the assignments of the rows. -/
theorem UpdateUsers.loop_eq_ok {U A : Type} [DecidableEq U] (P : Primitives) (s : Relay U A)
    (hbc : s.blockConstructor = aesNewCipher) (ul : List U) (kl : List (List Byte))
    (dl : List A) (m m' : UserMaps U A) (h : UpdateUsers.loop P s ul kl dl m = .ok m') :
    m' = m.applyRows P (userRows P s.keySaltLength ul kl dl) ∧
      ul.length ≤ kl.length ∧ ul.length ≤ dl.length := by
  induction ul generalizing kl dl m with
  | nil =>
    simp only [UpdateUsers.loop, Except.ok.injEq] at h
    subst h
    exact ⟨rfl, by simp, by simp⟩
  | cons u ul ih =>
    cases kl with
    | nil => simp [UpdateUsers.loop] at h
    | cons key kl =>
      cases dl with
      | nil => simp [UpdateUsers.loop] at h
      | cons d dl =>
        simp only [UpdateUsers.loop] at h
        split at h
        · simp at h
        · rw [hbc] at h
          split at h
          · simp at h
          · rename_i block hblock
            have hb := aesNewCipher_eq_ok _ _ hblock
            obtain ⟨h1, h2, h3⟩ := ih kl dl _ h
            refine ⟨?_, by simpa using h2, by simpa using h3⟩
            rw [h1, hb]
            rfl

/-- With well-formed lists and no key too short, the loop returns maps. -/
theorem UpdateUsers.loop_ok {U A : Type} [DecidableEq U] (P : Primitives) (s : Relay U A)
    (hbc : s.blockConstructor = aesNewCipher)
    (hk : s.keySaltLength = 16 ∨ s.keySaltLength = 32)
    (hKey : ∀ psk, (P.Key psk s.keySaltLength).length = s.keySaltLength)
    (ul : List U) (kl : List (List Byte)) (dl : List A) (m : UserMaps U A)
    (hkl : ul.length ≤ kl.length) (hdl : ul.length ≤ dl.length)
    (hkeys : ∀ (j : Nat) (key : List Byte), j < ul.length → kl[j]? = some key →
      s.keySaltLength ≤ key.length) :
    UpdateUsers.loop P s ul kl dl m = .ok (m.applyRows P (userRows P s.keySaltLength ul kl dl)) := by
  induction ul generalizing kl dl m with
  | nil => rfl
  | cons u ul ih =>
    cases kl with
    | nil => simp at hkl
    | cons key kl =>
      cases dl with
      | nil => simp at hdl
      | cons d dl =>
        have h0 : s.keySaltLength ≤ key.length := hkeys 0 key (by simp) (by simp)
        have hlen := effectiveKey_length P s.keySaltLength hKey key h0
        have hok : aesNewCipher (effectiveKey P s.keySaltLength key) =
            .ok (effectiveKey P s.keySaltLength key) :=
          aesNewCipher_ok _ (by rw [hlen]; exact hk)
        simp only [UpdateUsers.loop]
        rw [if_neg (by omega), hbc]
        have hok' : aesNewCipher (if key.length > s.keySaltLength then P.Key key s.keySaltLength
            else key) = .ok (effectiveKey P s.keySaltLength key) := hok
        rw [hok']
        simp only
        rw [ih kl dl _ (by simpa using hkl) (by simpa using hdl)
          (fun j key' hj hkey' => hkeys (j + 1) key' (by simpa using hj) (by simpa using hkey'))]
        rfl

/-- With well-formed lists, a key that is too short makes the loop return `ErrBadKey`. -/
theorem UpdateUsers.loop_bad_key {U A : Type} [DecidableEq U] (P : Primitives) (s : Relay U A)
    (hbc : s.blockConstructor = aesNewCipher)
    (hk : s.keySaltLength = 16 ∨ s.keySaltLength = 32)
    (hKey : ∀ psk, (P.Key psk s.keySaltLength).length = s.keySaltLength)
    (ul : List U) (kl : List (List Byte)) (dl : List A) (m : UserMaps U A)
    (hkl : ul.length ≤ kl.length) (hdl : ul.length ≤ dl.length)
    (j : Nat) (key : List Byte) (hj : j < ul.length) (hkey : kl[j]? = some key)
    (hshort : key.length < s.keySaltLength) :
    UpdateUsers.loop P s ul kl dl m = .error .ErrBadKey := by
  induction ul generalizing kl dl m j with
  | nil => simp at hj
  | cons u ul ih =>
    cases kl with
    | nil => simp at hkl
    | cons key' kl =>
      cases dl with
      | nil => simp at hdl
      | cons d dl =>
        simp only [UpdateUsers.loop]
        by_cases h0 : key'.length < s.keySaltLength
        · rw [if_pos h0]
        · rw [if_neg h0, hbc]
          have hlen := effectiveKey_length P s.keySaltLength hKey key' (by omega)
          have hok : aesNewCipher (effectiveKey P s.keySaltLength key') =
              .ok (effectiveKey P s.keySaltLength key') :=
            aesNewCipher_ok _ (by rw [hlen]; exact hk)
          have hok' : aesNewCipher (if key'.length > s.keySaltLength then
              P.Key key' s.keySaltLength else key') = .ok (effectiveKey P s.keySaltLength key') :=
            hok
          rw [hok']
          simp only
          cases j with
          | zero =>
            simp only [List.getElem?_cons_zero, Option.some.injEq] at hkey
            subst hkey
            exact absurd hshort h0
          | succ j =>
            exact ih kl dl _ (by simpa using hkl) (by simpa using hdl) j
              (by simpa using hj) (by simpa using hkey)

/-! ## Reachable states of the relay -/

theorem GoMap.setAll_isSome {K V : Type} [DecidableEq K] (l : List (K × V)) (m : GoMap K V)
    (k : K) (h : (∃ v, m k = some v) ∨ ∃ kv ∈ l, kv.1 = k) : ∃ v, m.setAll l k = some v := by
  induction l generalizing m with
  | nil =>
    rcases h with h | ⟨kv, hkv, _⟩
    · exact h
    · simp at hkv
  | cons a l ih =>
    rw [GoMap.setAll_cons]
    apply ih
    rcases h with ⟨v, hv⟩ | ⟨kv, hkv, hk⟩
    · left
      by_cases e : k = a.1
      · exact ⟨a.2, by rw [e]; exact GoMap.set_same _ _ _⟩
      · exact ⟨v, by rw [GoMap.set_other _ _ _ _ e]; exact hv⟩
    · rcases List.mem_cons.1 hkv with rfl | hkv
      · left
        exact ⟨kv.2, by rw [← hk]; exact GoMap.set_same _ _ _⟩
      · right
        exact ⟨kv, hkv, hk⟩

theorem NewRelay.finish_inv {U A : Type} (P : Primitives) (method : String) (k : Nat)
    (psk key : List Byte) (s : Relay U A)
    (hm : (method = "2022-blake3-aes-128-gcm" ∧ k = 16) ∨
      (method = "2022-blake3-aes-256-gcm" ∧ k = 32))
    (hpsk : k ≤ psk.length) (hkey : key = effectiveKey P k psk)
    (h : NewRelay.finish method k aesNewCipher key = .ok s) : RelayInv P method psk s := by
  unfold NewRelay.finish at h
  split at h
  · simp at h
  · rename_i block hblock
    have hb := aesNewCipher_eq_ok _ _ hblock
    simp only [Except.ok.injEq] at h
    subst h
    refine ⟨rfl, hm, hpsk, ?_, rfl, ?_⟩
    · simp [hb, hkey]
    · intro h u hu
      simp [GoMap.empty] at hu

theorem NewRelay.checkKey_inv {U A : Type} (P : Primitives) (method : String) (k : Nat)
    (psk : List Byte) (s : Relay U A)
    (hm : (method = "2022-blake3-aes-128-gcm" ∧ k = 16) ∨
      (method = "2022-blake3-aes-256-gcm" ∧ k = 32))
    (h : NewRelay.checkKey P method k psk = .ok s) : RelayInv P method psk s := by
  unfold NewRelay.checkKey at h
  split at h
  · split at h
    · simp at h
    · exact NewRelay.finish_inv P method k psk _ s hm (by omega)
        (by unfold effectiveKey; rw [if_pos (by omega)]) h
  · exact NewRelay.finish_inv P method k psk _ s hm (by omega)
      (by unfold effectiveKey; rw [if_neg (by omega)]) h

theorem NewRelay_inv {U A : Type} (P : Primitives) (method : String) (psk : List Byte)
    (s : Relay U A) (h : NewRelay P method psk = .ok s) : RelayInv P method psk s := by
  unfold NewRelay at h
  split at h
  · exact NewRelay.checkKey_inv P method 16 psk s (Or.inl ⟨by assumption, rfl⟩) h
  · split at h
    · exact NewRelay.checkKey_inv P method 32 psk s (Or.inr ⟨by assumption, rfl⟩) h
    · simp at h

/-- The state after a successful `UpdateUsers`: only the three maps change, and they
hold the assignments of the rows, made on empty maps. -/
theorem Relay.UpdateUsers_eq_ok {U A : Type} [DecidableEq U] (P : Primitives) (s t : Relay U A)
    (hbc : s.blockConstructor = aesNewCipher) (ul : List U) (kl : List (List Byte))
    (dl : List A) (h : s.UpdateUsers P ul kl dl = .ok t) :
    t.name = s.name ∧ t.keySaltLength = s.keySaltLength ∧
    t.blockConstructor = s.blockConstructor ∧ t.udpBlockCipher = s.udpBlockCipher ∧
    t.iPSK = s.iPSK ∧
    t.uPSKHash = GoMap.empty.setAll
      ((userRows P s.keySaltLength ul kl dl).map fun r => (identityHash P r.2.1, r.1)) ∧
    t.uDestination = GoMap.empty.setAll
      ((userRows P s.keySaltLength ul kl dl).map fun r => (r.1, r.2.2)) ∧
    t.uCipher = GoMap.empty.setAll
      ((userRows P s.keySaltLength ul kl dl).map fun r => (r.1, r.2.1)) ∧
    ul.length ≤ kl.length ∧ ul.length ≤ dl.length := by
  unfold Relay.UpdateUsers at h
  split at h
  · simp at h
  · rename_i m hm
    obtain ⟨h1, h2, h3⟩ := UpdateUsers.loop_eq_ok P s hbc ul kl dl _ m hm
    simp only [Except.ok.injEq] at h
    subst h
    subst h1
    exact ⟨rfl, rfl, rfl, rfl, rfl, rfl, rfl, rfl, h2, h3⟩

theorem Relay.UpdateUsers_inv {U A : Type} [DecidableEq U] (P : Primitives) (method : String)
    (psk : List Byte) (s t : Relay U A) (hs : RelayInv P method psk s) (ul : List U)
    (kl : List (List Byte)) (dl : List A) (h : s.UpdateUsers P ul kl dl = .ok t) :
    RelayInv P method psk t := by
  obtain ⟨hbc, hm, hpsk, hudp, hipsk, _⟩ := hs
  obtain ⟨_, hk, hb, hu, hi, hH, hD, hC, _, _⟩ := Relay.UpdateUsers_eq_ok P s t hbc ul kl dl h
  refine ⟨hb.trans hbc, by rw [hk]; exact hm, by rw [hk]; exact hpsk,
    by rw [hu, hk]; exact hudp, hi.trans hipsk, ?_⟩
  intro hash u hfound
  rw [hH] at hfound
  rcases GoMap.setAll_eq_some _ _ _ _ hfound with ⟨hemp, _⟩ | ⟨j, hj, _⟩
  · simp [GoMap.empty] at hemp
  · rw [List.getElem?_map] at hj
    cases hr : (userRows P s.keySaltLength ul kl dl)[j]? with
    | none => simp [hr] at hj
    | some r =>
      simp only [hr, Option.map_some', Option.some.injEq, Prod.mk.injEq] at hj
      have hmem : r ∈ userRows P s.keySaltLength ul kl dl := List.getElem?_mem hr
      constructor
      · rw [hC]
        exact GoMap.setAll_isSome _ _ _ (Or.inr ⟨(r.1, r.2.1), List.mem_map.2 ⟨r, hmem, rfl⟩, hj.2⟩)
      · rw [hD]
        exact GoMap.setAll_isSome _ _ _ (Or.inr ⟨(r.1, r.2.2), List.mem_map.2 ⟨r, hmem, rfl⟩, hj.2⟩)

theorem Reachable.inv {U A : Type} [DecidableEq U] (P : Primitives) (method : String)
    (psk : List Byte) (s : Relay U A) (h : Reachable P method psk s) :
    RelayInv P method psk s := by
  induction h with
  | new h => exact NewRelay_inv P method psk _ h
  | update ul kl dl _ hupd ih => exact Relay.UpdateUsers_inv P method psk _ _ ih ul kl dl hupd

theorem RelayInv.keySaltLength_cases {U A : Type} {P : Primitives} {method : String}
    {psk : List Byte} {s : Relay U A} (h : RelayInv P method psk s) :
    s.keySaltLength = 16 ∨ s.keySaltLength = 32 := by
  rcases h.2.1 with ⟨_, h⟩ | ⟨_, h⟩
  · exact Or.inl h
  · exact Or.inr h

/-! ## `Relay.newConnection` -/

/-- The header rewrite of `Relay.newConnection`: the salt copied over the bytes from
offset 16, then the first 16 bytes dropped. -/
theorem relay_header_rewrite (B : List Byte) (k : Nat) (hB : k + 16 ≤ B.length) :
    (copyAt B aesBlockSize (B.take k)).drop aesBlockSize = B.take k ++ B.drop (k + 16) := by
  have h16 : (B.take 16).length = 16 := by simp; omega
  have hk : (B.take k).length = k := by simp; omega
  simp only [copyAt, aesBlockSize, List.append_assoc]
  rw [List.drop_append_of_le_length (by omega), List.drop_of_length_le (by omega), hk,
    List.nil_append, List.take_of_length_le (by omega), Nat.add_comm 16 k]

/-- The result of `Relay.newConnection` on a header that is long enough, for a relay
whose block constructor is `aes.NewCipher` with a key length of 16 or 32. -/
theorem Relay.newConnection_eval {U A : Type} [Inhabited A] (P : Primitives)
    (hP : P.WellSized) (s : Relay U A) (hbc : s.blockConstructor = aesNewCipher)
    (hk : s.keySaltLength = 16 ∨ s.keySaltLength = 32)
    (handler : ConnCall U A → Option Error) (B : List Byte) (md : Metadata A)
    (hB : s.keySaltLength + 16 ≤ B.length) :
    s.newConnection P handler (.ok B) md =
      match s.uPSKHash (identityField P s B) with
      | none => ⟨[], some .invalidRequest⟩
      | some user =>
        ⟨[{ user := user
            metadata := { md with
              Protocol := "shadowsocks-relay"
              Destination := (s.uDestination user).getD default }
            cached := B.take s.keySaltLength ++ B.drop (s.keySaltLength + 16) }],
          handler
            { user := user
              metadata := { md with
                Protocol := "shadowsocks-relay"
                Destination := (s.uDestination user).getD default }
              cached := B.take s.keySaltLength ++ B.drop (s.keySaltLength + 16) }⟩ := by
  have hsub : aesNewCipher (identitySubkey P s (B.take s.keySaltLength)) =
      .ok (identitySubkey P s (B.take s.keySaltLength)) :=
    aesNewCipher_ok _ (by unfold identitySubkey; rw [hP.1]; exact hk)
  have hei : copyAt (List.replicate aesBlockSize 0) 0
      ((B.drop s.keySaltLength).take aesBlockSize) =
      (B.drop s.keySaltLength).take aesBlockSize :=
    copyAt_zero_of_length_eq _ _ (by simp [aesBlockSize]; omega)
  unfold Relay.newConnection
  simp only
  rw [if_neg (by simp only [aesBlockSize]; omega), hbc, hsub]
  simp only [hei, relay_header_rewrite B s.keySaltLength hB]
  rfl

/-- The destination found for a user after a successful `UpdateUsers` is the one listed
with the last occurrence of the user. -/
theorem Relay.UpdateUsers_destination {U A : Type} [DecidableEq U] (P : Primitives)
    (s t : Relay U A) (hbc : s.blockConstructor = aesNewCipher) (ul : List U)
    (kl : List (List Byte)) (dl : List A) (h : s.UpdateUsers P ul kl dl = .ok t) (u : U) (d : A)
    (hd : t.uDestination u = some d) :
    ∃ j : Nat, ul[j]? = some u ∧ dl[j]? = some d ∧ ∀ j' : Nat, j < j' → ul[j']? ≠ some u := by
  obtain ⟨_, _, _, _, _, _, hD, _, hkl, hdl⟩ := Relay.UpdateUsers_eq_ok P s t hbc ul kl dl h
  rw [hD] at hd
  rcases GoMap.setAll_eq_some _ _ _ _ hd with ⟨hemp, _⟩ | ⟨j, hj, hlast⟩
  · simp [GoMap.empty] at hemp
  · rw [List.getElem?_map] at hj
    cases hr : (userRows P s.keySaltLength ul kl dl)[j]? with
    | none => simp [hr] at hj
    | some r =>
      simp only [hr, Option.map_some', Option.some.injEq, Prod.mk.injEq] at hj
      obtain ⟨h1, _, h3⟩ := userRows_getElem? P s.keySaltLength ul kl dl j r hr
      refine ⟨j, by rw [h1, hj.1], by rw [h3, hj.2], ?_⟩
      intro j' hlt hu
      have hj' : j' < ul.length := by
        by_contra hcon
        rw [List.getElem?_eq_none (by omega)] at hu
        simp at hu
      obtain ⟨key, hkey⟩ : ∃ key, kl[j']? = some key :=
        ⟨kl[j'], List.getElem?_eq_getElem (by omega)⟩
      obtain ⟨d', hd'⟩ : ∃ d', dl[j']? = some d' :=
        ⟨dl[j'], List.getElem?_eq_getElem (by omega)⟩
      have hrow := userRows_of_getElem? P s.keySaltLength ul kl dl j' u key d' hu hkey hd'
      refine hlast j' (u, d') hlt ?_ rfl
      rw [List.getElem?_map, hrow]
      rfl

theorem toyPrimitives_wellSized : toyPrimitives.WellSized := by
  refine ⟨?_, ?_, ?_, ?_, ?_⟩
  · intro c m n
    simp [toyPrimitives, padTo]
  · intro key block h
    simp [toyPrimitives, padTo, xorBytes, h]
  · intro key block h
    simp [toyPrimitives, padTo, xorBytes, h]
  · intro psk n
    simp [toyPrimitives, padTo]
  · intro x
    simp [toyPrimitives, padTo]

theorem exampleRelay_reachable :
    Reachable toyPrimitives "2022-blake3-aes-128-gcm" examplePsk exampleRelay :=
  Reachable.new rfl

theorem exampleRelayB_reachable :
    Reachable toyPrimitives "2022-blake3-aes-128-gcm" examplePskB exampleRelayB :=
  Reachable.new rfl

theorem exampleTable_update :
    exampleRelay.UpdateUsers toyPrimitives exampleUsers exampleKeys exampleDestinations =
      .ok exampleTable := rfl

theorem exampleTable_reachable :
    Reachable toyPrimitives "2022-blake3-aes-128-gcm" examplePsk exampleTable :=
  Reachable.update _ _ _ exampleRelay_reachable exampleTable_update

/-! ## Claims on `Relay.newConnection` -/

/-- C1. Let `s` be any reachable state of a relay built by `NewRelay`, and `B` an
inbound request of at least `keySaltLength + 16` bytes whose identity field, decrypted
under the identity subkey the relay derives, is `h`. If the table maps `h` to the user
`u`, `Relay.newConnection` calls the handler exactly once, with `u` in the context,
protocol "shadowsocks-relay" and the destination the table holds for `u`, and returns
what the handler returns; that destination is the one listed with the last occurrence
of `u` in the successful `UpdateUsers` that produced `s`. If `h` is not a key of the
table, it returns the error "invalid request" and makes no call. -/
theorem Relay.newConnection_dispatch {U A : Type} [DecidableEq U] [Inhabited A]
    (P : Primitives) (hP : P.WellSized) (method : String) (psk : List Byte)
    (s : Relay U A) (hr : Reachable P method psk s)
    (handler : ConnCall U A → Option Error) (B : List Byte) (md : Metadata A)
    (hB : s.keySaltLength + 16 ≤ B.length) :
    (∀ u : U, s.uPSKHash (identityField P s B) = some u →
      ∃ (d : A) (cached : List Byte),
        s.uDestination u = some d ∧
        (∀ (s0 : Relay U A) (ul : List U) (kl : List (List Byte)) (dl : List A),
          Reachable P method psk s0 → s0.UpdateUsers P ul kl dl = .ok s →
          ∃ j : Nat, ul[j]? = some u ∧ dl[j]? = some d ∧
            ∀ j' : Nat, j < j' → ul[j']? ≠ some u) ∧
        s.newConnection P handler (.ok B) md =
          ⟨[{ user := u
              metadata := { md with Protocol := "shadowsocks-relay", Destination := d }
              cached := cached }],
            handler
              { user := u
                metadata := { md with Protocol := "shadowsocks-relay", Destination := d }
                cached := cached }⟩) ∧
    (s.uPSKHash (identityField P s B) = none →
      s.newConnection P handler (.ok B) md = ⟨[], some .invalidRequest⟩) := by
  have hs := Reachable.inv P method psk s hr
  have heval := Relay.newConnection_eval P hP s hs.1 hs.keySaltLength_cases handler B md hB
  constructor
  · intro u hu
    obtain ⟨_, d, hd⟩ := hs.2.2.2.2.2 _ u hu
    refine ⟨d, B.take s.keySaltLength ++ B.drop (s.keySaltLength + 16), hd, ?_, ?_⟩
    · intro s0 ul kl dl hr0 hupd
      exact Relay.UpdateUsers_destination P s0 s (Reachable.inv P method psk s0 hr0).1 ul kl dl
        hupd u d hd
    · rw [heval, hu]
      simp [hd]
  · intro hnone
    rw [heval, hnone]

theorem Relay.newConnection_dispatch_witness :
    (∀ u : String,
      exampleTable.uPSKHash (identityField toyPrimitives exampleTable exampleRequest) = some u →
      ∃ (d : String) (cached : List Byte),
        exampleTable.uDestination u = some d ∧
        (∀ (s0 : Relay String String) (ul : List String) (kl : List (List Byte))
            (dl : List String),
          Reachable toyPrimitives "2022-blake3-aes-128-gcm" examplePsk s0 →
          s0.UpdateUsers toyPrimitives ul kl dl = .ok exampleTable →
          ∃ j : Nat, ul[j]? = some u ∧ dl[j]? = some d ∧
            ∀ j' : Nat, j < j' → ul[j']? ≠ some u) ∧
        exampleTable.newConnection toyPrimitives (fun _ => none) (.ok exampleRequest)
            exampleMetadata =
          ⟨[{ user := u
              metadata := { exampleMetadata with
                Protocol := "shadowsocks-relay", Destination := d }
              cached := cached }],
            none⟩) ∧
    (exampleTable.uPSKHash (identityField toyPrimitives exampleTable exampleRequest) = none →
      exampleTable.newConnection toyPrimitives (fun _ => none) (.ok exampleRequest)
        exampleMetadata = ⟨[], some .invalidRequest⟩) :=
  Relay.newConnection_dispatch toyPrimitives toyPrimitives_wellSized "2022-blake3-aes-128-gcm"
    examplePsk exampleTable exampleTable_reachable (fun _ => none) exampleRequest
    exampleMetadata (by decide)

/-- C2. For a relay in a reachable state (key length 16 or 32) and an inbound request
`B` of `n ≥ keySaltLength + 16` bytes whose identity field matches a user, the prefix
that `Relay.newConnection` hands to the handler for replay is `B[0:k] ++ B[k+16:n]`, which
has `n - 16` bytes. -/
theorem Relay.newConnection_replayed_bytes {U A : Type} [DecidableEq U] [Inhabited A]
    (P : Primitives) (hP : P.WellSized) (method : String) (psk : List Byte)
    (s : Relay U A) (hr : Reachable P method psk s)
    (handler : ConnCall U A → Option Error) (B : List Byte) (md : Metadata A)
    (hB : s.keySaltLength + 16 ≤ B.length) (u : U)
    (hu : s.uPSKHash (identityField P s B) = some u) :
    (s.keySaltLength = 16 ∨ s.keySaltLength = 32) ∧
    (s.newConnection P handler (.ok B) md).calls.map (fun c => c.cached) =
      [B.take s.keySaltLength ++ B.drop (s.keySaltLength + 16)] ∧
    (B.take s.keySaltLength ++ B.drop (s.keySaltLength + 16)).length = B.length - 16 := by
  have hs := Reachable.inv P method psk s hr
  refine ⟨hs.keySaltLength_cases, ?_, ?_⟩
  · rw [Relay.newConnection_eval P hP s hs.1 hs.keySaltLength_cases handler B md hB, hu]
    rfl
  · simp only [List.length_append, List.length_take, List.length_drop]
    omega

theorem Relay.newConnection_replayed_bytes_witness :
    (exampleTable.keySaltLength = 16 ∨ exampleTable.keySaltLength = 32) ∧
    (exampleTable.newConnection toyPrimitives (fun _ => none) (.ok exampleRequest)
        exampleMetadata).calls.map (fun c => c.cached) =
      [exampleRequest.take exampleTable.keySaltLength ++
        exampleRequest.drop (exampleTable.keySaltLength + 16)] ∧
    (exampleRequest.take exampleTable.keySaltLength ++
      exampleRequest.drop (exampleTable.keySaltLength + 16)).length =
        exampleRequest.length - 16 :=
  Relay.newConnection_replayed_bytes toyPrimitives toyPrimitives_wellSized
    "2022-blake3-aes-128-gcm" examplePsk exampleTable exampleTable_reachable (fun _ => none)
    exampleRequest exampleMetadata (by decide) "bob" (by decide)

/-- C3 (the code departs from the claim). In every reachable state of a relay the field
`iPSK` is empty, so the key material from which `Relay.newConnection` derives the
identity subkey is `keySaltLength` zero bytes followed by the salt, whatever key the
relay was built with: two relays of one method built with different keys derive the
same identity subkey from the same salt. -/
theorem Relay.identitySubkey_ignores_psk {U A : Type} [DecidableEq U] (P : Primitives)
    (method : String) (psk1 psk2 : List Byte) (s1 s2 : Relay U A)
    (h1 : Reachable P method psk1 s1) (h2 : Reachable P method psk2 s2) (salt : List Byte)
    (hsalt : salt.length = s1.keySaltLength) :
    keyMaterial s1 salt = List.replicate s1.keySaltLength 0 ++ salt ∧
    identitySubkey P s1 salt = identitySubkey P s2 salt := by
  have i1 := Reachable.inv P method psk1 s1 h1
  have i2 := Reachable.inv P method psk2 s2 h2
  have hk : s1.keySaltLength = s2.keySaltLength := by
    rcases i1.2.1 with ⟨m1, k1⟩ | ⟨m1, k1⟩ <;> rcases i2.2.1 with ⟨m2, k2⟩ | ⟨m2, k2⟩
    · omega
    · rw [m1] at m2; simp at m2
    · rw [m1] at m2; simp at m2
    · omega
  have hmat : ∀ (s : Relay U A), s.iPSK = [] → keyMaterial s salt =
      copyAt (List.replicate (s.keySaltLength * 2) 0) s.keySaltLength salt := by
    intro s hs
    simp [keyMaterial, hs, copyAt]
  constructor
  · rw [hmat s1 i1.2.2.2.2.1]
    have := copyAt_exact (List.replicate s1.keySaltLength 0) (List.replicate s1.keySaltLength 0)
      [] salt (by simp [hsalt])
    simp only [List.append_nil, List.length_replicate] at this
    rw [← this, ← List.replicate_add, Nat.mul_two]
  · unfold identitySubkey
    rw [hmat s1 i1.2.2.2.2.1, hmat s2 i2.2.2.2.2.1, hk]

theorem Relay.identitySubkey_ignores_psk_witness :
    examplePsk ≠ examplePskB ∧
    keyMaterial exampleRelay (List.replicate 16 5) =
      List.replicate exampleRelay.keySaltLength 0 ++ List.replicate 16 5 ∧
    identitySubkey toyPrimitives exampleRelay (List.replicate 16 5) =
      identitySubkey toyPrimitives exampleRelayB (List.replicate 16 5) :=
  ⟨by decide, Relay.identitySubkey_ignores_psk toyPrimitives "2022-blake3-aes-128-gcm"
    examplePsk examplePskB exampleRelay exampleRelayB exampleRelay_reachable
    exampleRelayB_reachable (List.replicate 16 5) (by decide)⟩

/-! ## Claims on `Relay.newPacket` -/

/-- The buffer rewrite of `Relay.newPacket`: header decrypted in place, encrypted again
in place, copied over the second block, and the first block dropped. -/
theorem relay_packet_rewrite (D header enc : List Byte) (hh : header.length = 16)
    (he : enc.length = 16) (hD : 32 ≤ D.length) :
    (copyAt (copyAt (copyAt D 0 header) 0 enc) aesBlockSize enc).drop aesBlockSize =
      enc ++ D.drop 32 := by
  have h1 : copyAt D 0 header = header ++ D.drop 16 := by
    rw [copyAt_zero_head _ _ (by omega), hh]
  have h2 : copyAt (header ++ D.drop 16) 0 enc = enc ++ D.drop 16 := by
    rw [copyAt_zero_head _ _ (by simp; omega), he, ← hh, List.drop_left]
  have h3 : D.drop 16 = (D.drop 16).take 16 ++ D.drop 32 := by
    conv_lhs => rw [← List.take_append_drop 16 (D.drop 16)]
    rw [List.drop_drop]
  have h4 : copyAt (enc ++ (D.drop 16).take 16 ++ D.drop 32) 16 enc =
      enc ++ enc ++ D.drop 32 := by
    have := copyAt_exact enc ((D.drop 16).take 16) (D.drop 32) enc (by simp; omega)
    rwa [he] at this
  have h5 : (enc ++ enc ++ D.drop 32).drop 16 = enc ++ D.drop 32 := by
    rw [List.append_assoc]
    conv_lhs => rw [← he]
    rw [List.drop_left]
  rw [h1, h2, aesBlockSize, h3, ← List.append_assoc, h4, h5]

/-- C6. For a relay built by `NewRelay(method, psk)` in any reachable state and every
datagram `D` of at least 32 bytes, with `header` the first block decrypted under the
relay key and `identity` the second block decrypted under the relay key and combined by
exclusive or with `header`: when the table maps `identity` to the user `u`,
`Relay.newPacket` makes exactly one call to the UDP NAT, keyed by the big-endian value of
the first eight bytes of `header`, with the datagram `Encrypt_u(header) ++ D[32:]`
(16 bytes shorter than `D`), the destination of `u` and protocol "shadowsocks-relay",
and returns no error; when `identity` is not in the table it returns "invalid request"
and makes no call. -/
theorem Relay.newPacket_dispatch {U A : Type} [DecidableEq U] [Inhabited A]
    (P : Primitives) (hP : P.WellSized) (method : String) (psk : List Byte)
    (s : Relay U A) (hr : Reachable P method psk s) (D : List Byte) (md : Metadata A)
    (hD : 32 ≤ D.length) :
    (∀ u : U,
      s.uPSKHash (packetIdentity P (effectiveKey P s.keySaltLength psk) D) = some u →
      ∃ (uKey : List Byte) (d : A), s.uCipher u = some uKey ∧ s.uDestination u = some d ∧
        s.newPacket P D md =
          ⟨[{ sessionId := beUint64 (packetHeaderPlain P (effectiveKey P s.keySaltLength psk) D)
              buffer := P.aesEncrypt uKey
                (packetHeaderPlain P (effectiveKey P s.keySaltLength psk) D) ++ D.drop 32
              metadata := { md with Protocol := "shadowsocks-relay", Destination := d }
              user := u }], none⟩ ∧
        (P.aesEncrypt uKey (packetHeaderPlain P (effectiveKey P s.keySaltLength psk) D) ++
          D.drop 32).length = D.length - 16) ∧
    (s.uPSKHash (packetIdentity P (effectiveKey P s.keySaltLength psk) D) = none →
      s.newPacket P D md = ⟨[], some .invalidRequest⟩) := by
  have hs := Reachable.inv P method psk s hr
  obtain ⟨_, _, _, hudp, _, htab⟩ := hs
  have hh : (packetHeaderPlain P (effectiveKey P s.keySaltLength psk) D).length = 16 :=
    hP.2.2.1 _ _ (by simp; omega)
  have hbuf : ((copyAt D 0 (packetHeaderPlain P (effectiveKey P s.keySaltLength psk) D)).drop
      aesBlockSize).take aesBlockSize = (D.drop 16).take 16 := by
    rw [copyAt_zero_head _ _ (by omega), hh, aesBlockSize, ← hh, List.drop_left, hh]
  have hid : List.zipWith (fun a b => a ^^^ b)
      (P.aesDecrypt (effectiveKey P s.keySaltLength psk) ((D.drop 16).take 16))
      (packetHeaderPlain P (effectiveKey P s.keySaltLength psk) D) =
      packetIdentity P (effectiveKey P s.keySaltLength psk) D := rfl
  constructor
  · intro u hu
    obtain ⟨⟨uKey, hkey⟩, d, hd⟩ := htab _ u hu
    have he : (P.aesEncrypt uKey
        (packetHeaderPlain P (effectiveKey P s.keySaltLength psk) D)).length = 16 :=
      hP.2.1 _ _ hh
    refine ⟨uKey, d, hkey, hd, ?_, ?_⟩
    · unfold Relay.newPacket
      rw [hudp]
      simp only
      have hpl : P.aesDecrypt (effectiveKey P s.keySaltLength psk) (D.take aesBlockSize) =
          packetHeaderPlain P (effectiveKey P s.keySaltLength psk) D := rfl
      rw [hpl, hbuf, hid, hu]
      simp only
      rw [hkey]
      simp only
      rw [relay_packet_rewrite D _ _ hh he hD, hd]
      rfl
    · simp only [List.length_append, List.length_drop, he]
      omega
  · intro hnone
    unfold Relay.newPacket
    rw [hudp]
    simp only
    have hpl : P.aesDecrypt (effectiveKey P s.keySaltLength psk) (D.take aesBlockSize) =
        packetHeaderPlain P (effectiveKey P s.keySaltLength psk) D := rfl
    rw [hpl, hbuf, hid, hnone]

theorem Relay.newPacket_dispatch_witness :
    (∀ u : String,
      exampleTable.uPSKHash (packetIdentity toyPrimitives
        (effectiveKey toyPrimitives exampleTable.keySaltLength examplePsk) exampleDatagram) =
          some u →
      ∃ (uKey : List Byte) (d : String),
        exampleTable.uCipher u = some uKey ∧ exampleTable.uDestination u = some d ∧
        exampleTable.newPacket toyPrimitives exampleDatagram exampleMetadata =
          ⟨[{ sessionId := beUint64 (packetHeaderPlain toyPrimitives
                (effectiveKey toyPrimitives exampleTable.keySaltLength examplePsk)
                exampleDatagram)
              buffer := toyPrimitives.aesEncrypt uKey
                (packetHeaderPlain toyPrimitives
                  (effectiveKey toyPrimitives exampleTable.keySaltLength examplePsk)
                  exampleDatagram) ++ exampleDatagram.drop 32
              metadata := { exampleMetadata with
                Protocol := "shadowsocks-relay", Destination := d }
              user := u }], none⟩ ∧
        (toyPrimitives.aesEncrypt uKey
          (packetHeaderPlain toyPrimitives
            (effectiveKey toyPrimitives exampleTable.keySaltLength examplePsk)
            exampleDatagram) ++ exampleDatagram.drop 32).length =
          exampleDatagram.length - 16) ∧
    (exampleTable.uPSKHash (packetIdentity toyPrimitives
        (effectiveKey toyPrimitives exampleTable.keySaltLength examplePsk) exampleDatagram) =
          none →
      exampleTable.newPacket toyPrimitives exampleDatagram exampleMetadata =
        ⟨[], some .invalidRequest⟩) :=
  Relay.newPacket_dispatch toyPrimitives toyPrimitives_wellSized "2022-blake3-aes-128-gcm"
    examplePsk exampleTable exampleTable_reachable exampleDatagram exampleMetadata (by decide)

/-! ## Claims on `Relay.UpdateUsers` and `NewRelay` -/

/-- With lists of one length and no key shorter than the key length, `UpdateUsers`
succeeds from every state that satisfies the invariant. -/
theorem Relay.UpdateUsers_ok {U A : Type} [DecidableEq U] (P : Primitives) (hP : P.WellSized)
    (method : String) (psk : List Byte) (s : Relay U A) (hs : RelayInv P method psk s)
    (ul : List U) (kl : List (List Byte)) (dl : List A)
    (hkl : kl.length = ul.length) (hdl : dl.length = ul.length)
    (hkeys : ∀ key ∈ kl, s.keySaltLength ≤ key.length) :
    ∃ t, s.UpdateUsers P ul kl dl = .ok t := by
  have h := UpdateUsers.loop_ok P s hs.1 hs.keySaltLength_cases (fun psk => hP.2.2.2.1 psk _)
    ul kl dl { uPSKHash := GoMap.empty, uDestination := GoMap.empty, uCipher := GoMap.empty }
    (by omega) (by omega) (fun j key _ hkey => hkeys key (List.getElem?_mem hkey))
  unfold Relay.UpdateUsers
  rw [h]
  exact ⟨_, rfl⟩

/-- With lists of one length, a key shorter than the key length makes `UpdateUsers`
fail with `ErrBadKey`. -/
theorem Relay.UpdateUsers_bad_key {U A : Type} [DecidableEq U] (P : Primitives)
    (hP : P.WellSized) (method : String) (psk : List Byte) (s : Relay U A)
    (hs : RelayInv P method psk s) (ul : List U) (kl : List (List Byte)) (dl : List A)
    (hkl : kl.length = ul.length) (hdl : dl.length = ul.length)
    (key : List Byte) (hmem : key ∈ kl) (hshort : key.length < s.keySaltLength) :
    s.UpdateUsers P ul kl dl = .error .ErrBadKey := by
  obtain ⟨j, hj⟩ := List.getElem?_of_mem hmem
  have hjlt : j < ul.length := by
    by_contra hcon
    rw [List.getElem?_eq_none (by omega)] at hj
    simp at hj
  have h := UpdateUsers.loop_bad_key P s hs.1 hs.keySaltLength_cases
    (fun psk => hP.2.2.2.1 psk _) ul kl dl
    { uPSKHash := GoMap.empty, uDestination := GoMap.empty, uCipher := GoMap.empty }
    (by omega) (by omega) j key hjlt hj hshort
  unfold Relay.UpdateUsers
  rw [h]

/-- C7 (counterexample). Over the small primitives, `UpdateUsers` with the users "alice"
and "bob" given one and the same 16-byte key returns no error; afterwards the identity
hash of that key maps to "bob", and "alice" is not reachable through it. -/
theorem Relay.UpdateUsers_accepts_collision :
    exampleRelay.UpdateUsers toyPrimitives ["alice", "bob"]
        [List.replicate 16 1, List.replicate 16 1] ["d1.example:443", "d2.example:443"] =
      .ok exampleCollision ∧
    exampleCollision.uPSKHash (identityHash toyPrimitives (List.replicate 16 1)) = some "bob" ∧
    exampleCollision.uPSKHash (identityHash toyPrimitives (List.replicate 16 1)) ≠
      some "alice" :=
  ⟨rfl, by decide, by decide⟩

/-- C7 (amended). `UpdateUsers` makes no collision check: from every reachable state,
with lists of one length and no key shorter than the key length, it succeeds, whether
or not two keys have the same identity hash; afterwards the identity hash of a listed
key maps to the user listed with it, provided no key listed later has the same identity
hash. In particular, when the identity hashes of the listed keys are pairwise distinct,
every listed user is reachable through their own hash. -/
theorem Relay.UpdateUsers_last_hash_wins {U A : Type} [DecidableEq U] (P : Primitives)
    (hP : P.WellSized) (method : String) (psk : List Byte) (s : Relay U A)
    (hr : Reachable P method psk s) (ul : List U) (kl : List (List Byte)) (dl : List A)
    (hkl : kl.length = ul.length) (hdl : dl.length = ul.length)
    (hkeys : ∀ key ∈ kl, s.keySaltLength ≤ key.length) :
    ∃ t, s.UpdateUsers P ul kl dl = .ok t ∧
      ∀ (j : Nat) (u : U) (key : List Byte), ul[j]? = some u → kl[j]? = some key →
        (∀ (j' : Nat) (key' : List Byte), j < j' → kl[j']? = some key' →
          identityHash P (effectiveKey P s.keySaltLength key') ≠
            identityHash P (effectiveKey P s.keySaltLength key)) →
        t.uPSKHash (identityHash P (effectiveKey P s.keySaltLength key)) = some u := by
  have hs := Reachable.inv P method psk s hr
  obtain ⟨t, ht⟩ := Relay.UpdateUsers_ok P hP method psk s hs ul kl dl hkl hdl hkeys
  refine ⟨t, ht, ?_⟩
  intro j u key hu hkey hlast
  obtain ⟨_, _, _, _, _, hH, _, _, _, _⟩ := Relay.UpdateUsers_eq_ok P s t hs.1 ul kl dl ht
  have hjlt : j < ul.length := by
    by_contra hcon
    rw [List.getElem?_eq_none (by omega)] at hu
    simp at hu
  obtain ⟨d, hd⟩ : ∃ d, dl[j]? = some d := ⟨dl[j], List.getElem?_eq_getElem (by omega)⟩
  have hrow := userRows_of_getElem? P s.keySaltLength ul kl dl j u key d hu hkey hd
  rw [hH]
  refine GoMap.setAll_last _ _ j _ _ (by rw [List.getElem?_map, hrow]; rfl) ?_
  intro j' kv hlt hkv
  rw [List.getElem?_map] at hkv
  cases hr' : (userRows P s.keySaltLength ul kl dl)[j']? with
  | none => simp [hr'] at hkv
  | some r =>
    simp only [hr', Option.map_some', Option.some.injEq] at hkv
    obtain ⟨_, ⟨key', hkey', hr2⟩, _⟩ := userRows_getElem? P s.keySaltLength ul kl dl j' r hr'
    rw [← hkv]
    simp only
    rw [hr2]
    exact hlast j' key' hlt hkey'

theorem Relay.UpdateUsers_last_hash_wins_witness :
    ∃ t, exampleRelay.UpdateUsers toyPrimitives exampleUsers exampleKeys exampleDestinations =
        .ok t ∧
      ∀ (j : Nat) (u : String) (key : List Byte), exampleUsers[j]? = some u →
        exampleKeys[j]? = some key →
        (∀ (j' : Nat) (key' : List Byte), j < j' → exampleKeys[j']? = some key' →
          identityHash toyPrimitives (effectiveKey toyPrimitives exampleRelay.keySaltLength key') ≠
            identityHash toyPrimitives
              (effectiveKey toyPrimitives exampleRelay.keySaltLength key)) →
        t.uPSKHash (identityHash toyPrimitives
          (effectiveKey toyPrimitives exampleRelay.keySaltLength key)) = some u :=
  Relay.UpdateUsers_last_hash_wins toyPrimitives toyPrimitives_wellSized
    "2022-blake3-aes-128-gcm" examplePsk exampleRelay exampleRelay_reachable exampleUsers
    exampleKeys exampleDestinations rfl rfl (by decide)

theorem NewRelay.checkKey_ok {U A : Type} (P : Primitives) (hP : P.WellSized) (method : String)
    (k : Nat) (hk : k = 16 ∨ k = 32) (psk : List Byte) (hpsk : k ≤ psk.length) :
    ∃ s : Relay U A, NewRelay.checkKey P method k psk = .ok s ∧ s.keySaltLength = k ∧
      s.udpBlockCipher = some (effectiveKey P k psk) := by
  have hlen := effectiveKey_length P k (fun psk => hP.2.2.2.1 psk k) psk hpsk
  have hok := aesNewCipher_ok (effectiveKey P k psk) (by rw [hlen]; exact hk)
  have hfin : ∀ key, key = effectiveKey P k psk →
      ∃ s : Relay U A, NewRelay.finish method k aesNewCipher key = .ok s ∧
        s.keySaltLength = k ∧ s.udpBlockCipher = some (effectiveKey P k psk) := by
    intro key hkey
    unfold NewRelay.finish
    rw [hkey, hok]
    exact ⟨_, rfl, rfl, rfl⟩
  unfold NewRelay.checkKey
  by_cases hne : psk.length ≠ k
  · rw [if_pos hne, if_neg (by omega)]
    exact hfin _ (by unfold effectiveKey; rw [if_pos (by omega)])
  · rw [if_neg hne]
    exact hfin _ (by unfold effectiveKey; rw [if_neg (by omega)])

/-- C8. Let `L` be the key length of the method (16 for 2022-blake3-aes-128-gcm, 32 for
2022-blake3-aes-256-gcm). `NewRelay` fails with `ErrBadKey` on a key shorter than `L`,
keys the UDP block cipher with `Key(psk, L)` on a longer key and with the key itself on
a key of `L` bytes. `UpdateUsers`, on lists of one length from a reachable state, fails
with `ErrBadKey` as soon as one listed key is shorter than `L`; otherwise it succeeds,
and for the last entry of each user the block cipher of the user is keyed by, and the
table holds the identity hash of, `Key(key, L)` when the key is longer than `L` and the
key itself when it has `L` bytes. -/
theorem Relay.psk_length_handling {U A : Type} [DecidableEq U] (P : Primitives)
    (hP : P.WellSized) (method : String) (L : Nat)
    (hm : (method = "2022-blake3-aes-128-gcm" ∧ L = 16) ∨
      (method = "2022-blake3-aes-256-gcm" ∧ L = 32)) (psk : List Byte) :
    (psk.length < L → NewRelay (U := U) (A := A) P method psk = .error .ErrBadKey) ∧
    (L < psk.length → ∃ s : Relay U A, NewRelay P method psk = .ok s ∧
      s.keySaltLength = L ∧ s.udpBlockCipher = some (P.Key psk L)) ∧
    (psk.length = L → ∃ s : Relay U A, NewRelay P method psk = .ok s ∧
      s.keySaltLength = L ∧ s.udpBlockCipher = some psk) ∧
    ∀ (s : Relay U A), Reachable P method psk s →
      ∀ (ul : List U) (kl : List (List Byte)) (dl : List A),
        kl.length = ul.length → dl.length = ul.length →
        (∀ key ∈ kl, key.length < L → s.UpdateUsers P ul kl dl = .error .ErrBadKey) ∧
        ((∀ key ∈ kl, L ≤ key.length) →
          ∃ t, s.UpdateUsers P ul kl dl = .ok t ∧
            ∀ (j : Nat) (u : U) (key : List Byte), ul[j]? = some u → kl[j]? = some key →
              (∀ j' : Nat, j < j' → ul[j']? ≠ some u) →
              (L < key.length → t.uCipher u = some (P.Key key L) ∧
                ∃ u', t.uPSKHash (identityHash P (P.Key key L)) = some u') ∧
              (key.length = L → t.uCipher u = some key ∧
                ∃ u', t.uPSKHash (identityHash P key) = some u')) := by
  have hL : L = 16 ∨ L = 32 := by
    rcases hm with ⟨_, h⟩ | ⟨_, h⟩
    · exact Or.inl h
    · exact Or.inr h
  have hnew : NewRelay (U := U) (A := A) P method psk = NewRelay.checkKey P method L psk := by
    unfold NewRelay
    rcases hm with ⟨h1, h2⟩ | ⟨h1, h2⟩
    · rw [if_pos h1, h2]
    · rw [if_neg (by rw [h1]; decide), if_pos h1, h2]
  refine ⟨?_, ?_, ?_, ?_⟩
  · intro hshort
    rw [hnew]
    unfold NewRelay.checkKey
    rw [if_pos (by omega), if_pos hshort]
  · intro hlong
    obtain ⟨s, h1, h2, h3⟩ := NewRelay.checkKey_ok (U := U) (A := A) P hP method L hL psk
      (by omega)
    refine ⟨s, by rw [hnew]; exact h1, h2, ?_⟩
    rw [h3]
    unfold effectiveKey
    rw [if_pos hlong]
  · intro heq
    obtain ⟨s, h1, h2, h3⟩ := NewRelay.checkKey_ok (U := U) (A := A) P hP method L hL psk
      (by omega)
    refine ⟨s, by rw [hnew]; exact h1, h2, ?_⟩
    rw [h3]
    unfold effectiveKey
    rw [if_neg (by omega)]
  · intro s hr ul kl dl hkl hdl
    have hs := Reachable.inv P method psk s hr
    have hsk : s.keySaltLength = L := by
      rcases hm with ⟨h1, h2⟩ | ⟨h1, h2⟩ <;> rcases hs.2.1 with ⟨g1, g2⟩ | ⟨g1, g2⟩
      · omega
      · rw [h1] at g1; simp at g1
      · rw [h1] at g1; simp at g1
      · omega
    constructor
    · intro key hmem hshort
      exact Relay.UpdateUsers_bad_key P hP method psk s hs ul kl dl hkl hdl key hmem
        (by omega)
    · intro hkeys
      obtain ⟨t, ht⟩ := Relay.UpdateUsers_ok P hP method psk s hs ul kl dl hkl hdl
        (fun key hkey => by rw [hsk]; exact hkeys key hkey)
      refine ⟨t, ht, ?_⟩
      intro j u key hu hkey hlast
      obtain ⟨_, _, _, _, _, hH, _, hC, _, _⟩ := Relay.UpdateUsers_eq_ok P s t hs.1 ul kl dl ht
      have hjlt : j < ul.length := by
        by_contra hcon
        rw [List.getElem?_eq_none (by omega)] at hu
        simp at hu
      obtain ⟨d, hd⟩ : ∃ d, dl[j]? = some d := ⟨dl[j], List.getElem?_eq_getElem (by omega)⟩
      have hrow := userRows_of_getElem? P s.keySaltLength ul kl dl j u key d hu hkey hd
      have hcipher : t.uCipher u = some (effectiveKey P L key) := by
        rw [hC, ← hsk]
        refine GoMap.setAll_last _ _ j _ _ (by rw [List.getElem?_map, hrow]; rfl) ?_
        intro j' kv hlt hkv
        rw [List.getElem?_map] at hkv
        cases hr' : (userRows P s.keySaltLength ul kl dl)[j']? with
        | none => simp [hr'] at hkv
        | some r =>
          simp only [hr', Option.map_some', Option.some.injEq] at hkv
          obtain ⟨hr1, _, _⟩ := userRows_getElem? P s.keySaltLength ul kl dl j' r hr'
          rw [← hkv]
          intro e
          exact hlast j' hlt (by rw [hr1]; exact congrArg some e)
      have hhash : ∃ u', t.uPSKHash (identityHash P (effectiveKey P L key)) = some u' := by
        rw [hH, ← hsk]
        exact GoMap.setAll_isSome _ _ _ (Or.inr ⟨_, List.mem_map.2
          ⟨_, List.getElem?_mem hrow, rfl⟩, rfl⟩)
      constructor
      · intro hlong
        have e : effectiveKey P L key = P.Key key L := by
          unfold effectiveKey
          rw [if_pos hlong]
        rw [← e]
        exact ⟨hcipher, hhash⟩
      · intro heq
        have e : effectiveKey P L key = key := by
          unfold effectiveKey
          rw [if_neg (by omega)]
        rw [e] at hcipher hhash
        exact ⟨hcipher, hhash⟩

theorem Relay.psk_length_handling_witness :
    (examplePsk.length < 16 →
      NewRelay (U := String) (A := String) toyPrimitives "2022-blake3-aes-128-gcm" examplePsk =
        .error .ErrBadKey) ∧
    (16 < examplePsk.length → ∃ s : Relay String String,
      NewRelay toyPrimitives "2022-blake3-aes-128-gcm" examplePsk = .ok s ∧
      s.keySaltLength = 16 ∧ s.udpBlockCipher = some (toyPrimitives.Key examplePsk 16)) ∧
    (examplePsk.length = 16 → ∃ s : Relay String String,
      NewRelay toyPrimitives "2022-blake3-aes-128-gcm" examplePsk = .ok s ∧
      s.keySaltLength = 16 ∧ s.udpBlockCipher = some examplePsk) ∧
    ∀ (s : Relay String String),
      Reachable toyPrimitives "2022-blake3-aes-128-gcm" examplePsk s →
      ∀ (ul : List String) (kl : List (List Byte)) (dl : List String),
        kl.length = ul.length → dl.length = ul.length →
        (∀ key ∈ kl, key.length < 16 →
          s.UpdateUsers toyPrimitives ul kl dl = .error .ErrBadKey) ∧
        ((∀ key ∈ kl, 16 ≤ key.length) →
          ∃ t, s.UpdateUsers toyPrimitives ul kl dl = .ok t ∧
            ∀ (j : Nat) (u : String) (key : List Byte), ul[j]? = some u →
              kl[j]? = some key → (∀ j' : Nat, j < j' → ul[j']? ≠ some u) →
              (16 < key.length → t.uCipher u = some (toyPrimitives.Key key 16) ∧
                ∃ u', t.uPSKHash (identityHash toyPrimitives (toyPrimitives.Key key 16)) =
                  some u') ∧
              (key.length = 16 → t.uCipher u = some key ∧
                ∃ u', t.uPSKHash (identityHash toyPrimitives key) = some u')) :=
  Relay.psk_length_handling toyPrimitives toyPrimitives_wellSized "2022-blake3-aes-128-gcm" 16
    (Or.inl ⟨rfl, rfl⟩) examplePsk

/-! ## Claims on the stream-cipher client -/

theorem copyAt_replicate_zero (n : Nat) (src : List Byte) (h : src.length = n) :
    copyAt (List.replicate n 0) 0 src = src :=
  copyAt_zero_of_length_eq _ _ (by simp [h])

/-- The first `Write` of a client whose encrypt constructor accepts the salt and whose
connection accepts the write. -/
theorem clientConn.Write_first_eval {σ A : Type} (S : StreamPrimitives σ)
    (addrPort : A → List Byte) (rand : Nat → List Byte) (connWrite : List Byte → Option Error)
    (m : Method σ) (destination : A) (payload : List Byte) (w : σ)
    (henc : m.encryptConstructor m.key
      (copyAt (List.replicate m.keyLength 0) 0 (rand m.keyLength)) = .ok w)
    (hconn : ∀ b, connWrite b = none) :
    (m.DialEarlyConn destination).Write S addrPort rand connWrite payload =
      ⟨{ m.DialEarlyConn destination with writeStream := some w },
        [copyAt (List.replicate m.keyLength 0) 0 (rand m.keyLength) ++ addrPort destination ++
          payload], payload.length, none⟩ := by
  simp only [clientConn.Write, Method.DialEarlyConn, clientConn.writeRequest, henc, hconn]

/-- C4 (the code departs from the claim). For every stream method whose encrypt
constructor accepts the salt, the first `Write` of the client passes to the connection
the salt followed by the serialised destination and the payload as they are, with no
key stream applied, and installs the cipher in its initial state; the second `Write`
passes its bytes combined with the key stream from that initial state on. -/
theorem clientConn.first_write_is_plaintext {σ A : Type} (S : StreamPrimitives σ)
    (addrPort : A → List Byte) (rand : Nat → List Byte) (connWrite : List Byte → Option Error)
    (m : Method σ) (destination : A) (payload p2 : List Byte) (w : σ)
    (hrand : (rand m.keyLength).length = m.keyLength)
    (henc : m.encryptConstructor m.key (rand m.keyLength) = .ok w)
    (hconn : ∀ b, connWrite b = none) :
    ((m.DialEarlyConn destination).Write S addrPort rand connWrite payload).written =
      [rand m.keyLength ++ addrPort destination ++ payload] ∧
    ((m.DialEarlyConn destination).Write S addrPort rand connWrite payload).err = none ∧
    ((m.DialEarlyConn destination).Write S addrPort rand connWrite payload).n =
      payload.length ∧
    ((m.DialEarlyConn destination).Write S addrPort rand connWrite payload).conn.writeStream =
      some w ∧
    (((m.DialEarlyConn destination).Write S addrPort rand connWrite payload).conn.Write S
      addrPort rand connWrite p2).written = [(S.xorKeyStream w p2).1] := by
  have hs := copyAt_replicate_zero _ _ hrand
  have h1 := clientConn.Write_first_eval S addrPort rand connWrite m destination payload w
    (by rw [hs]; exact henc) hconn
  rw [hs] at h1
  rw [h1]
  refine ⟨rfl, rfl, rfl, rfl, ?_⟩
  simp only [clientConn.Write, hconn]

theorem clientConn.first_write_is_plaintext_witness :
    (((exampleCtrMethod.DialEarlyConn "a.io").Write toyStream exampleAddrPort exampleRand
        exampleConnWrite [104, 105]).written =
      [exampleRand exampleCtrMethod.keyLength ++ exampleAddrPort "a.io" ++ [104, 105]] ∧
    ((exampleCtrMethod.DialEarlyConn "a.io").Write toyStream exampleAddrPort exampleRand
        exampleConnWrite [104, 105]).err = none ∧
    ((exampleCtrMethod.DialEarlyConn "a.io").Write toyStream exampleAddrPort exampleRand
        exampleConnWrite [104, 105]).n = [(104 : Byte), 105].length ∧
    ((exampleCtrMethod.DialEarlyConn "a.io").Write toyStream exampleAddrPort exampleRand
        exampleConnWrite [104, 105]).conn.writeStream = some (176, 0) ∧
    (((exampleCtrMethod.DialEarlyConn "a.io").Write toyStream exampleAddrPort exampleRand
        exampleConnWrite [104, 105]).conn.Write toyStream exampleAddrPort exampleRand
        exampleConnWrite [33]).written = [(toyStream.xorKeyStream (176, 0) [33]).1]) ∧
    (toyStream.xorKeyStream (176, 0) (exampleAddrPort "a.io" ++ [104, 105])).1 ≠
      exampleAddrPort "a.io" ++ [104, 105] :=
  ⟨clientConn.first_write_is_plaintext toyStream exampleAddrPort exampleRand exampleConnWrite
    exampleCtrMethod "a.io" [104, 105] [33] (176, 0) (by decide) rfl (fun _ => rfl),
    by decide⟩

/-- C5 (the code departs from the claim). For the method `rc4-md5` built by `New` from
a password, whose key length is 16 and whose salt length is 0, the first `Write` of the
client passes to the connection a salt of 16 bytes, not of 0 bytes, before the
destination, for a total of `16 + addr_len + len(payload)` bytes, and the first read
takes 16 bytes of the input as the salt of the peer. -/
theorem clientConn.salt_has_key_length {σ A : Type} (S : StreamPrimitives σ)
    (addrPort : A → List Byte) (rand : Nat → List Byte) (connWrite : List Byte → Option Error)
    (password : String) (m : Method σ) (destination : A) (payload input : List Byte)
    (hpw : password ≠ "") (hm : New S "rc4-md5" [] password = .ok m)
    (hmd5 : ∀ x, (S.md5 x).length = 16) (hconn : ∀ b, connWrite b = none)
    (hin : 16 ≤ input.length) :
    m.keyLength = 16 ∧ m.saltLength = 0 ∧
    (∃ salt : List Byte, salt.length = 16 ∧
      ((m.DialEarlyConn destination).Write S addrPort rand connWrite payload).written =
        [salt ++ addrPort destination ++ payload]) ∧
    ((m.DialEarlyConn destination).Write S addrPort rand connWrite payload).written.map
      List.length = [16 + (addrPort destination).length + payload.length] ∧
    ((m.DialEarlyConn destination).readResponse S input).2 = (input.drop 16, none) := by
  have hm' : m =
      { name := "rc4-md5", keyLength := 16, saltLength := 0,
        encryptConstructor := rc4md5Constructor S, decryptConstructor := rc4md5Constructor S,
        key := S.Key (stringBytes password) 16 } := by
    simp [New, New.withKey, hpw] at hm
    exact hm.symm
  have hcons : ∀ key salt, rc4md5Constructor S key salt = .ok (S.newRC4 (S.md5 (key ++ salt))) := by
    intro key salt
    simp [rc4md5Constructor, hmd5]
  have hk : m.keyLength = 16 := by rw [hm']
  have hsalt : (copyAt (List.replicate m.keyLength 0) 0 (rand m.keyLength)).length = 16 := by
    rw [copyAt_length _ _ _ (by simp)]
    simp [hk]
  have henc : m.encryptConstructor = rc4md5Constructor S := by rw [hm']
  have hdec : m.decryptConstructor = rc4md5Constructor S := by rw [hm']
  have hw := clientConn.Write_first_eval S addrPort rand connWrite m destination payload _
    (by rw [henc]; exact hcons _ _) hconn
  refine ⟨hk, by rw [hm'], ⟨_, hsalt, by rw [hw]⟩, ?_, ?_⟩
  · rw [hw]
    simp only [List.map_cons, List.map_nil, List.length_append, hsalt]
  · simp only [clientConn.readResponse, Method.DialEarlyConn, hdec, hcons, hk]
    rw [if_neg (by omega)]

theorem clientConn.salt_has_key_length_witness :
    exampleRc4Method.keyLength = 16 ∧ exampleRc4Method.saltLength = 0 ∧
    (∃ salt : List Byte, salt.length = 16 ∧
      ((exampleRc4Method.DialEarlyConn "a.io").Write toyStream exampleAddrPort exampleRand
        exampleConnWrite [104, 105]).written = [salt ++ exampleAddrPort "a.io" ++ [104, 105]]) ∧
    ((exampleRc4Method.DialEarlyConn "a.io").Write toyStream exampleAddrPort exampleRand
      exampleConnWrite [104, 105]).written.map List.length =
        [16 + (exampleAddrPort "a.io").length + [(104 : Byte), 105].length] ∧
    ((exampleRc4Method.DialEarlyConn "a.io").readResponse toyStream (List.replicate 20 9)).2 =
      ((List.replicate 20 (9 : Byte)).drop 16, none) :=
  clientConn.salt_has_key_length toyStream exampleAddrPort exampleRand exampleConnWrite "test"
    exampleRc4Method "a.io" [104, 105] (List.replicate 20 9) (by decide) rfl
    (fun x => by simp [toyStream, padTo]) (fun _ => rfl) (by decide)

/-! ## `readTLSChunkEnd` -/

theorem take_split_record (q : List Byte) (d n : Nat) (h : 5 + d ≤ n) :
    q.take n = q.take 5 ++ (q.drop 5).take d ++ (q.drop (5 + d)).take (n - (5 + d)) := by
  have hn : n = 5 + (d + (n - (5 + d))) := by omega
  conv_lhs => rw [hn]
  rw [List.take_add, List.take_add, List.drop_drop, List.append_assoc]

theorem recordDataLen_take (q : List Byte) (n : Nat) (h : 5 ≤ n) :
    recordDataLen (q.take n) = recordDataLen q := by
  unfold recordDataLen
  rw [List.drop_take, List.take_take, Nat.min_eq_left (by omega)]

theorem recordDataLen_append (header rest : List Byte) (h : header.length = 5) :
    recordDataLen (header ++ rest) = beUint16 ((header.drop 3).take 2) := by
  unfold recordDataLen
  rw [List.drop_append_of_le_length (by omega), List.take_append_of_le_length (by simp; omega)]

/-- A prefix that reaches past the first complete record and whose remainder is a
sequence of records is a sequence of records. -/
theorem TLSRecords.take_of_rest (q : List Byte) (n : Nat) (h5 : 5 + recordDataLen q ≤ n)
    (hn : n ≤ q.length)
    (hrest : TLSRecords ((q.drop (5 + recordDataLen q)).take (n - (5 + recordDataLen q)))) :
    TLSRecords (q.take n) := by
  rw [take_split_record q (recordDataLen q) n h5]
  refine TLSRecords.cons _ _ _ (by simp; omega) ?_ hrest
  rw [List.length_take, List.length_drop, List.drop_take, List.take_take]
  have : beUint16 (List.take (min 2 (5 - 3)) (List.drop 3 q)) = recordDataLen q := rfl
  rw [this]
  omega

/-- A prefix that is a sequence of records is empty, or reaches past the first complete
record with a remainder that is a sequence of records. -/
theorem TLSRecords.take_inv (q : List Byte) (n : Nat) (hn : n ≤ q.length)
    (h : TLSRecords (q.take n)) :
    n = 0 ∨ (5 + recordDataLen q ≤ n ∧
      TLSRecords ((q.drop (5 + recordDataLen q)).take (n - (5 + recordDataLen q)))) := by
  generalize hl : q.take n = l at h
  cases h with
  | nil =>
    left
    have := congrArg List.length hl
    simp only [List.length_take, List.length_nil] at this
    omega
  | cons header data rest hh hd hrest =>
    right
    have hlen := congrArg List.length hl
    simp only [List.length_take, List.length_append] at hlen
    have hn5 : 5 ≤ n := by omega
    have hdl : recordDataLen q = data.length := by
      rw [← recordDataLen_take q n hn5, hl, List.append_assoc, recordDataLen_append _ _ hh, hd]
    refine ⟨by omega, ?_⟩
    have hr : rest = (q.take n).drop (5 + recordDataLen q) := by
      rw [hl, hdl, ← hh, ← List.length_append, List.drop_left]
    rw [← List.drop_take, ← hr]
    exact hrest

/-- The loop of `readTLSChunkEnd`, started at a record boundary with enough turns,
returns the last record boundary of the buffer. -/
theorem readTLSChunkEnd.loop_spec (p : List Byte) (fuel index : Nat) (hi : index ≤ p.length)
    (hf : p.length - index < fuel) :
    index ≤ readTLSChunkEnd.loop p fuel index ∧ readTLSChunkEnd.loop p fuel index ≤ p.length ∧
    TLSRecords ((p.drop index).take (readTLSChunkEnd.loop p fuel index - index)) ∧
    ∀ r : Nat, index ≤ r → r ≤ p.length → TLSRecords ((p.drop index).take (r - index)) →
      r ≤ readTLSChunkEnd.loop p fuel index := by
  induction fuel generalizing index with
  | zero => omega
  | succ fuel ih =>
    have hdl : beUint16 ((p.drop (index + 3)).take 2) = recordDataLen (p.drop index) := by
      unfold recordDataLen
      rw [List.drop_drop]
    have hstop : ∀ r : Nat, index ≤ r → r ≤ p.length →
        TLSRecords ((p.drop index).take (r - index)) →
        (p.length - index < 5 ∨ index + 5 + recordDataLen (p.drop index) > p.length) →
        r ≤ index := by
      intro r h1 h2 h3 h4
      rcases TLSRecords.take_inv (p.drop index) (r - index) (by simp; omega) h3 with h | ⟨h, _⟩
      · omega
      · omega
    unfold readTLSChunkEnd.loop
    simp only [hdl]
    by_cases c1 : index < p.length
    · rw [if_pos c1]
      by_cases c2 : p.length - index < 5
      · rw [if_pos c2]
        refine ⟨le_refl _, hi, by simpa using TLSRecords.nil, ?_⟩
        intro r h1 h2 h3
        exact hstop r h1 h2 h3 (Or.inl c2)
      · rw [if_neg c2]
        by_cases c3 : index + 5 + recordDataLen (p.drop index) > p.length
        · rw [if_pos c3]
          refine ⟨le_refl _, hi, by simpa using TLSRecords.nil, ?_⟩
          intro r h1 h2 h3
          exact hstop r h1 h2 h3 (Or.inr c3)
        · rw [if_neg c3]
          obtain ⟨g1, g2, g3, g4⟩ := ih (index + 5 + recordDataLen (p.drop index)) (by omega)
            (by omega)
          have hdrop : (p.drop index).drop (5 + recordDataLen (p.drop index)) =
              p.drop (index + 5 + recordDataLen (p.drop index)) := by
            rw [List.drop_drop, Nat.add_assoc]
          refine ⟨by omega, g2, ?_, ?_⟩
          · refine TLSRecords.take_of_rest _ _ (by omega) (by simp; omega) ?_
            rw [hdrop]
            have : readTLSChunkEnd.loop p fuel (index + 5 + recordDataLen (p.drop index)) - index -
                (5 + recordDataLen (p.drop index)) =
                readTLSChunkEnd.loop p fuel (index + 5 + recordDataLen (p.drop index)) -
                  (index + 5 + recordDataLen (p.drop index)) := by omega
            rw [this]
            exact g3
          · intro r h1 h2 h3
            rcases TLSRecords.take_inv (p.drop index) (r - index) (by simp; omega) h3 with
              h | ⟨h, hrest⟩
            · omega
            · refine g4 r (by omega) h2 ?_
              rw [hdrop] at hrest
              have : r - index - (5 + recordDataLen (p.drop index)) =
                  r - (index + 5 + recordDataLen (p.drop index)) := by omega
              rw [this] at hrest
              exact hrest
    · rw [if_neg c1]
      refine ⟨le_refl _, hi, by simpa using TLSRecords.nil, ?_⟩
      intro r h1 h2 _
      omega

/-- C10. For every byte buffer `p`, `readTLSChunkEnd(p)` is the largest `r ≤ len(p)`
such that `p[0:r]` is a concatenation of zero or more complete TLS records; it is 0 when
`p` has fewer than 5 bytes or its first record is incomplete, and `len(p)` when `p` is a
whole number of records. The loop ends within `len(p) + 1` turns: more turns give the
same result. -/
theorem readTLSChunkEnd_largest_boundary (p : List Byte) :
    readTLSChunkEnd p ≤ p.length ∧
    TLSRecords (p.take (readTLSChunkEnd p)) ∧
    (∀ r : Nat, r ≤ p.length → TLSRecords (p.take r) → r ≤ readTLSChunkEnd p) ∧
    (p.length < 5 → readTLSChunkEnd p = 0) ∧
    (p.length < 5 + recordDataLen p → readTLSChunkEnd p = 0) ∧
    (TLSRecords p → readTLSChunkEnd p = p.length) ∧
    (∀ fuel : Nat, p.length < fuel → readTLSChunkEnd.loop p fuel 0 = readTLSChunkEnd p) := by
  have key : ∀ fuel : Nat, p.length < fuel →
      readTLSChunkEnd.loop p fuel 0 ≤ p.length ∧
      TLSRecords (p.take (readTLSChunkEnd.loop p fuel 0)) ∧
      ∀ r : Nat, r ≤ p.length → TLSRecords (p.take r) → r ≤ readTLSChunkEnd.loop p fuel 0 := by
    intro fuel hf
    obtain ⟨_, h2, h3, h4⟩ := readTLSChunkEnd.loop_spec p fuel 0 (Nat.zero_le _) (by omega)
    refine ⟨h2, by simpa using h3, ?_⟩
    intro r hr hrec
    exact h4 r (Nat.zero_le _) hr (by simpa using hrec)
  obtain ⟨h1, h2, h3⟩ : readTLSChunkEnd p ≤ p.length ∧
      TLSRecords (p.take (readTLSChunkEnd p)) ∧
      ∀ r : Nat, r ≤ p.length → TLSRecords (p.take r) → r ≤ readTLSChunkEnd p :=
    key (p.length + 1) (by omega)
  have hzero : p.length < 5 + recordDataLen p → readTLSChunkEnd p = 0 := by
    intro hshort
    rcases TLSRecords.take_inv p (readTLSChunkEnd p) h1 h2 with h | ⟨h, _⟩
    · exact h
    · have : readTLSChunkEnd p ≤ p.length := h1
      omega
  refine ⟨h1, h2, h3, fun h => hzero (by omega), hzero, ?_, ?_⟩
  · intro hall
    have := h3 p.length (le_refl _) (by simpa using hall)
    have h1' : readTLSChunkEnd p ≤ p.length := h1
    omega
  · intro fuel hf
    obtain ⟨g1, g2, g3⟩ := key fuel hf
    have a := h3 _ g1 g2
    have b := g3 _ h1 h2
    have a' : readTLSChunkEnd.loop p fuel 0 ≤ readTLSChunkEnd p := a
    omega

/-! ## The TLS-record reframer -/

theorem TLSRecord.bytes_eq (r : TLSRecord) : r.bytes = r.header ++ r.data := rfl

theorem TLSRecord.header_length (r : TLSRecord) : r.header.length = 5 := rfl

theorem TLSRecord.header_dataLen (r : TLSRecord) (h : r.data.length < 65536) :
    beUint16 ((r.header.drop 3).take 2) = r.data.length := by
  simp only [TLSRecord.header, beUint16, List.drop_succ_cons, List.drop_zero, List.take_succ_cons,
    List.take_zero, List.foldl_cons, List.foldl_nil, Fin.ofNat, Nat.zero_mul, Nat.zero_add]
  omega

theorem readFull_append (a b : List Byte) : readFull (a ++ b) a.length = .ok (a, b) := by
  unfold readFull
  rw [if_neg (by simp), List.take_left, List.drop_left]

theorem readFull_append' (a b : List Byte) (n : Nat) (h : a.length = n) :
    readFull (a ++ b) n = .ok (a, b) := by
  rw [← h]
  exact readFull_append a b

/-- One turn of the loop of the writer on an input that starts with a record that fits
the buffer. -/
theorem TLSEncryptedStreamWriter.loop_record (aead : AEAD) (ha : aead.Sound) (cap : Nat)
    (rawWrite : List Byte → Option Error) (hraw : ∀ b, rawWrite b = none) (fuel nonce : Nat)
    (r : TLSRecord) (rest : List Byte) (hlen : r.data.length < 65536)
    (hfit : tlsEncryptedLengthChunkLength + r.data.length + Overhead ≤ cap) :
    TLSEncryptedStreamWriter.loop aead cap rawWrite (fuel + 1) nonce (r.bytes ++ rest) =
      ⟨r.wire aead nonce ::
        (TLSEncryptedStreamWriter.loop aead cap rawWrite fuel (r.nextNonce nonce) rest).calls,
        (TLSEncryptedStreamWriter.loop aead cap rawWrite fuel (r.nextNonce nonce) rest).err⟩ := by
  have hrf : readFull (r.bytes ++ rest) 5 = .ok (r.header, r.data ++ rest) := by
    rw [TLSRecord.bytes_eq, List.append_assoc]
    exact readFull_append' _ _ 5 rfl
  have hseal : (aead.Seal nonce r.header).length = tlsEncryptedLengthChunkLength := by
    rw [ha.2]
    rfl
  have hw1 : WriteChunk aead cap nonce [] r.header =
      .ok (aead.Seal nonce r.header, increaseNonce nonce) := by
    unfold WriteChunk
    simp only [List.length_nil, List.nil_append]
    rw [if_neg (by rw [hseal]; omega)]
  have hrd : readFull (r.data ++ rest) r.data.length = .ok (r.data, rest) := readFull_append _ _
  conv_lhs => rw [TLSEncryptedStreamWriter.loop]
  simp only [hrf, hw1, TLSRecord.header_dataLen r hlen, hrd, hraw]
  have hty : r.header.headD 0 = r.recordType := rfl
  rw [hty]
  by_cases c : r.recordType = recordTypeApplicationData
  · simp only [c, ne_eq, not_true_eq_false, if_false, TLSRecord.wire, TLSRecord.nextNonce,
      if_true]
    rw [if_neg (by rw [hseal]; omega)]
  · have hw2 : WriteChunk aead cap (increaseNonce nonce) (aead.Seal nonce r.header) r.data =
        .ok (aead.Seal nonce r.header ++ aead.Seal (increaseNonce nonce) r.data,
          increaseNonce (increaseNonce nonce)) := by
      unfold WriteChunk
      simp only
      rw [if_neg (by rw [hseal, ha.2]; omega)]
    simp only [c, ne_eq, not_false_eq_true, if_true, if_false, TLSRecord.wire,
      TLSRecord.nextNonce, hw2]
    rw [if_neg (by omega)]

/-- The loop of the writer on a sequence of records that fit the buffer: one write for
each record, its reframed form, and the loop ends with the end of the input. -/
theorem TLSEncryptedStreamWriter.loop_records (aead : AEAD) (ha : aead.Sound) (cap : Nat)
    (rawWrite : List Byte → Option Error) (hraw : ∀ b, rawWrite b = none)
    (rs : List TLSRecord)
    (hfit : ∀ r ∈ rs, r.data.length < 65536 ∧
      tlsEncryptedLengthChunkLength + r.data.length + Overhead ≤ cap)
    (fuel nonce : Nat) (hfuel : (rs.map TLSRecord.bytes).flatten.length < fuel) :
    TLSEncryptedStreamWriter.loop aead cap rawWrite fuel nonce (rs.map TLSRecord.bytes).flatten =
      ⟨wireAll aead nonce rs, some (.external "EOF")⟩ := by
  induction rs generalizing fuel nonce with
  | nil =>
    cases fuel with
    | zero => simp at hfuel
    | succ fuel => rfl
  | cons r rs ih =>
    cases fuel with
    | zero => simp at hfuel
    | succ fuel =>
      obtain ⟨h1, h2⟩ := hfit r (List.mem_cons_self _ _)
      simp only [List.map_cons, List.flatten_cons, List.length_append] at hfuel ⊢
      have h5 : 5 ≤ r.bytes.length := by
        rw [TLSRecord.bytes_eq, List.length_append, TLSRecord.header_length]
        omega
      rw [TLSEncryptedStreamWriter.loop_record aead ha cap rawWrite hraw fuel nonce r _ h1 h2,
        ih (fun r' hr' => hfit r' (List.mem_cons_of_mem _ hr')) fuel _ (by omega)]
      rfl

/-- One `Read` on a reader with an empty buffer whose input starts with the reframed
form of a record: the destination receives the first bytes of the record and the rest
stays in the buffer. -/
theorem TLSEncryptedStreamReader.Read_wire (aead : AEAD) (ha : aead.Sound) (cap nonce : Nat)
    (r : TLSRecord) (rest : List Byte) (pLen : Nat) (hlen : r.data.length < 65536)
    (hfit : 5 + r.data.length + Overhead ≤ cap) :
    TLSEncryptedStreamReader.Read aead cap ⟨nonce, [], r.wire aead nonce ++ rest⟩ pLen =
      (⟨r.nextNonce nonce, r.bytes.drop pLen, rest⟩, r.bytes.take pLen, none) := by
  have hseal : (aead.Seal nonce r.header).length = tlsEncryptedLengthChunkLength := by
    rw [ha.2]
    rfl
  have hbr : bufferRead (r.header ++ r.data) pLen =
      ((r.header ++ r.data).drop pLen, (r.header ++ r.data).take pLen, none) := by
    unfold bufferRead
    rw [if_neg (by rw [List.length_append, TLSRecord.header_length]; omega)]
  have hrc : ReadChunk aead cap nonce [] (aead.Seal nonce r.header) =
      .ok (r.header, increaseNonce nonce) := by
    unfold ReadChunk
    rw [ha.1]
    simp only [List.length_nil, List.nil_append]
    rw [if_neg (by rw [TLSRecord.header_length]; omega)]
  have hty : r.header.headD 0 = r.recordType := rfl
  unfold TLSEncryptedStreamReader.Read
  by_cases c : r.recordType = recordTypeApplicationData
  · have hrf : readFull (r.wire aead nonce ++ rest) tlsEncryptedLengthChunkLength =
        .ok (aead.Seal nonce r.header, r.data ++ rest) := by
      unfold TLSRecord.wire
      rw [if_pos c, List.append_assoc]
      exact readFull_append' _ _ _ hseal
    have hrd : readFull (r.data ++ rest) r.data.length = .ok (r.data, rest) :=
      readFull_append _ _
    simp only [List.length_nil, ne_eq, not_true_eq_false, if_false, hrf, hrc, hty, c, if_true,
      TLSRecord.header_dataLen r hlen, hrd, hbr, TLSRecord.nextNonce, TLSRecord.bytes_eq]
    rw [if_neg (by rw [TLSRecord.header_length]; omega)]
  · have hrf : readFull (r.wire aead nonce ++ rest) tlsEncryptedLengthChunkLength =
        .ok (aead.Seal nonce r.header, aead.Seal (increaseNonce nonce) r.data ++ rest) := by
      unfold TLSRecord.wire
      rw [if_neg c, List.append_assoc]
      exact readFull_append' _ _ _ hseal
    have hrd : readFull (aead.Seal (increaseNonce nonce) r.data ++ rest)
        (r.data.length + Overhead) =
        .ok (aead.Seal (increaseNonce nonce) r.data, rest) :=
      readFull_append' _ _ _ (ha.2 _ _)
    have hrc2 : ReadChunk aead cap (increaseNonce nonce) r.header
        (aead.Seal (increaseNonce nonce) r.data) =
        .ok (r.header ++ r.data, increaseNonce (increaseNonce nonce)) := by
      unfold ReadChunk
      rw [ha.1]
      simp only
      rw [if_neg (by rw [TLSRecord.header_length]; omega)]
    simp only [List.length_nil, ne_eq, not_true_eq_false, if_false, hrf, hrc, hty, c,
      TLSRecord.header_dataLen r hlen, hrd, hrc2, hbr, TLSRecord.nextNonce, TLSRecord.bytes_eq]
    rw [if_neg (by omega)]

/-- One `Read` as before, into a destination that holds the record. -/
theorem TLSEncryptedStreamReader.Read_record (aead : AEAD) (ha : aead.Sound) (cap nonce : Nat)
    (r : TLSRecord) (rest : List Byte) (pLen : Nat) (hlen : r.data.length < 65536)
    (hfit : 5 + r.data.length + Overhead ≤ cap) (hp : r.bytes.length ≤ pLen) :
    TLSEncryptedStreamReader.Read aead cap ⟨nonce, [], r.wire aead nonce ++ rest⟩ pLen =
      (⟨r.nextNonce nonce, [], rest⟩, r.bytes, none) := by
  rw [TLSEncryptedStreamReader.Read_wire aead ha cap nonce r rest pLen hlen hfit,
    List.drop_of_length_le hp, List.take_of_length_le hp]

/-- One `Read` on a reader with bytes left in its buffer. -/
theorem TLSEncryptedStreamReader.Read_buffered (aead : AEAD) (cap nonce : Nat)
    (buffer raw : List Byte) (pLen : Nat) (hb : buffer.length ≠ 0) :
    TLSEncryptedStreamReader.Read aead cap ⟨nonce, buffer, raw⟩ pLen =
      (⟨nonce, buffer.drop pLen, raw⟩, buffer.take pLen, none) := by
  unfold TLSEncryptedStreamReader.Read
  simp only [hb, ne_eq, not_false_eq_true, if_true, bufferRead, if_false]

/-- One `Read` on a reader with an empty buffer at the end of the input. -/
theorem TLSEncryptedStreamReader.Read_end (aead : AEAD) (cap nonce : Nat) (pLen : Nat) :
    TLSEncryptedStreamReader.Read aead cap ⟨nonce, [], []⟩ pLen =
      (⟨nonce, [], []⟩, [], some (.external "EOF")) := rfl

/-- Successive reads of the reframed forms of a sequence of records, each into a
destination that holds the record, return the records in order. -/
theorem TLSEncryptedStreamReader.reads_records (aead : AEAD) (ha : aead.Sound) (cap : Nat)
    (rs : List TLSRecord)
    (hfit : ∀ r ∈ rs, r.data.length < 65536 ∧
      tlsEncryptedLengthChunkLength + r.data.length + Overhead ≤ cap)
    (pLens : List Nat) (hp : List.Forall₂ (fun r pLen => r.bytes.length ≤ pLen) rs pLens)
    (nonce : Nat) (rest : List Byte) :
    TLSEncryptedStreamReader.reads aead cap ⟨nonce, [], (wireAll aead nonce rs).flatten ++ rest⟩
      pLens = (⟨nonceAfter nonce rs, [], rest⟩, rs.map fun r => (r.bytes, none)) := by
  induction hp generalizing nonce with
  | nil => rfl
  | @cons r pLen rs pLens hrp _ ih =>
    obtain ⟨h1, h2⟩ := hfit r (List.mem_cons_self _ _)
    have h2' : 5 + r.data.length + Overhead ≤ cap := by
      unfold tlsEncryptedLengthChunkLength at h2
      omega
    simp only [wireAll, List.flatten_cons, List.append_assoc, TLSEncryptedStreamReader.reads,
      TLSEncryptedStreamReader.Read_record aead ha cap nonce r _ pLen h1 h2' hrp,
      ih (fun r' hr' => hfit r' (List.mem_cons_of_mem _ hr')), List.map_cons, nonceAfter]

/-- Reading to the end with destinations of any positive length returns the bytes left
in the buffer followed by all records, byte for byte, given one call more than there are
bytes to receive. -/
theorem TLSEncryptedStreamReader.drain_records (aead : AEAD) (ha : aead.Sound) (cap pLen : Nat)
    (hpos : 0 < pLen) (fuel : Nat) (rs : List TLSRecord)
    (hfit : ∀ r ∈ rs, r.data.length < 65536 ∧
      tlsEncryptedLengthChunkLength + r.data.length + Overhead ≤ cap)
    (nonce : Nat) (buffer : List Byte)
    (hfuel : buffer.length + (rs.map TLSRecord.bytes).flatten.length < fuel) :
    TLSEncryptedStreamReader.drain aead cap pLen fuel
      ⟨nonce, buffer, (wireAll aead nonce rs).flatten⟩ =
      buffer ++ (rs.map TLSRecord.bytes).flatten := by
  induction fuel generalizing rs nonce buffer with
  | zero => omega
  | succ fuel ih =>
    unfold TLSEncryptedStreamReader.drain
    by_cases hb : buffer.length = 0
    · have hnil : buffer = [] := List.length_eq_zero.1 hb
      subst hnil
      cases rs with
      | nil => rfl
      | cons r rs =>
        obtain ⟨h1, h2⟩ := hfit r (List.mem_cons_self _ _)
        have h2' : 5 + r.data.length + Overhead ≤ cap := by
          unfold tlsEncryptedLengthChunkLength at h2
          omega
        have h5 : 5 ≤ r.bytes.length := by
          rw [TLSRecord.bytes_eq, List.length_append, TLSRecord.header_length]
          omega
        simp only [wireAll, List.flatten_cons, List.map_cons, List.length_append,
          List.length_nil, Nat.zero_add] at hfuel ⊢
        rw [TLSEncryptedStreamReader.Read_wire aead ha cap nonce r _ pLen h1 h2']
        simp only
        rw [ih rs (fun r' hr' => hfit r' (List.mem_cons_of_mem _ hr')) _ _
          (by rw [List.length_drop]; omega), List.nil_append, ← List.append_assoc,
          List.take_append_drop]
    · rw [TLSEncryptedStreamReader.Read_buffered aead cap nonce buffer _ pLen hb]
      simp only
      rw [ih rs hfit _ _ (by rw [List.length_drop]; omega), ← List.append_assoc,
        List.take_append_drop]

theorem toyAEAD_sound : toyAEAD.Sound := by
  constructor
  · intro nonce x
    have hlen : (List.map (fun b : Byte => b + 1) x ++
        List.replicate 16 (Fin.ofNat (nonce + x.length) : Byte)).length - 16 = x.length := by
      simp
    have hmap : (List.map (fun b : Byte => b + 1) x).length = x.length := by simp
    simp only [toyAEAD]
    rw [hlen, if_pos]
    · rw [← hmap, List.take_left, List.map_map]
      have hid : ((fun b : Byte => b - 1) ∘ fun b : Byte => b + 1) = id := by
        funext b
        simp
      rw [hid, List.map_id]
    · constructor
      · simp
      · rw [← hmap, List.drop_left, hmap]
  · intro nonce x
    simp [toyAEAD, Overhead]

/-- C9. For every sequence of TLS records, of any types, each with less than 65536
bytes of data and small enough for the scratch buffer, written to the writer over a
sound AEAD when the underlying writes succeed: the writer makes one write for each
record; reads of the emitted bytes through the reader over the same AEAD from the same
nonce, each into a destination that holds the record, return the records, header and
data, in order; and reads into destinations of any positive length, repeated to the end
of the stream, return the bytes of the records in order. -/
theorem tls_reframer_round_trip (aead : AEAD) (ha : aead.Sound) (cap : Nat)
    (rawWrite : List Byte → Option Error) (hraw : ∀ b, rawWrite b = none) (nonce : Nat)
    (rs : List TLSRecord)
    (hfit : ∀ r ∈ rs, r.data.length < 65536 ∧
      tlsEncryptedLengthChunkLength + r.data.length + Overhead ≤ cap) :
    (TLSEncryptedStreamWriter.loopOut aead cap rawWrite nonce
      (rs.map TLSRecord.bytes).flatten).calls.length = rs.length ∧
    (∀ pLens : List Nat, List.Forall₂ (fun r pLen => r.bytes.length ≤ pLen) rs pLens →
      (TLSEncryptedStreamReader.reads aead cap
        ⟨nonce, [], (TLSEncryptedStreamWriter.loopOut aead cap rawWrite nonce
          (rs.map TLSRecord.bytes).flatten).calls.flatten⟩ pLens).2 =
        rs.map fun r => (r.bytes, none)) ∧
    (∀ pLen fuel : Nat, 0 < pLen → (rs.map TLSRecord.bytes).flatten.length < fuel →
      TLSEncryptedStreamReader.drain aead cap pLen fuel
        ⟨nonce, [], (TLSEncryptedStreamWriter.loopOut aead cap rawWrite nonce
          (rs.map TLSRecord.bytes).flatten).calls.flatten⟩ =
        (rs.map TLSRecord.bytes).flatten) := by
  have hw : TLSEncryptedStreamWriter.loopOut aead cap rawWrite nonce
      (rs.map TLSRecord.bytes).flatten = ⟨wireAll aead nonce rs, some (.external "EOF")⟩ :=
    TLSEncryptedStreamWriter.loop_records aead ha cap rawWrite hraw rs hfit _ nonce
      (Nat.lt_succ_self _)
  have hlen : ∀ (n : Nat) (l : List TLSRecord), (wireAll aead n l).length = l.length := by
    intro n l
    induction l generalizing n with
    | nil => rfl
    | cons r l ih => simp [wireAll, ih]
  rw [hw]
  refine ⟨hlen _ _, ?_, ?_⟩
  · intro pLens hp
    have := TLSEncryptedStreamReader.reads_records aead ha cap rs hfit pLens hp nonce []
    rw [List.append_nil] at this
    rw [this]
  · intro pLen fuel hpos hfuel
    have := TLSEncryptedStreamReader.drain_records aead ha cap pLen hpos fuel rs hfit nonce []
      (by simpa using hfuel)
    rw [this, List.nil_append]

theorem tls_reframer_round_trip_witness :
    (TLSEncryptedStreamWriter.loopOut toyAEAD 100 exampleConnWrite 0
      (exampleRecords.map TLSRecord.bytes).flatten).calls.length = exampleRecords.length ∧
    (∀ pLens : List Nat,
      List.Forall₂ (fun r pLen => r.bytes.length ≤ pLen) exampleRecords pLens →
      (TLSEncryptedStreamReader.reads toyAEAD 100
        ⟨0, [], (TLSEncryptedStreamWriter.loopOut toyAEAD 100 exampleConnWrite 0
          (exampleRecords.map TLSRecord.bytes).flatten).calls.flatten⟩ pLens).2 =
        exampleRecords.map fun r => (r.bytes, none)) ∧
    (∀ pLen fuel : Nat, 0 < pLen → (exampleRecords.map TLSRecord.bytes).flatten.length < fuel →
      TLSEncryptedStreamReader.drain toyAEAD 100 pLen fuel
        ⟨0, [], (TLSEncryptedStreamWriter.loopOut toyAEAD 100 exampleConnWrite 0
          (exampleRecords.map TLSRecord.bytes).flatten).calls.flatten⟩ =
        (exampleRecords.map TLSRecord.bytes).flatten) :=
  tls_reframer_round_trip toyAEAD toyAEAD_sound 100 exampleConnWrite (fun _ => rfl) 0
    exampleRecords (by decide)

/-! ## Claims on the version check of the reader and on the stream methods -/

/-- C11 (counterexample). Over the small AEAD, a `Read` on the reframed form of a
handshake record whose header carries the version 0x0505, which is none of 0x0301,
0x0302, 0x0303, 0x0304, returns no error and delivers the eight bytes of the record. -/
theorem TLSEncryptedStreamReader.Read_accepts_version_0505 :
    exampleOddVersionRecord.version = 0x0505 ∧
    exampleOddVersionRecord.version ∉ [tlsVersion10, tlsVersion11, tlsVersion12, tlsVersion13] ∧
    (TLSEncryptedStreamReader.Read toyAEAD 100
      ⟨0, [], exampleOddVersionRecord.wire toyAEAD 0⟩ 100).2 =
        ([22, 5, 5, 0, 3, 1, 2, 3], none) := by
  decide

/-- C11 (amended). `TLSEncryptedStreamReader.Read` does not look at the version: for
every record that fits the buffer, whatever version its authenticated 5-byte header
carries (also one other than 0x0301, 0x0302, 0x0303 and 0x0304), over a sound AEAD a
`Read` on the reframed form of the record into a destination that holds it returns no
error and delivers the record, header and data, with the version bytes as they are. -/
theorem TLSEncryptedStreamReader.Read_any_version (aead : AEAD) (ha : aead.Sound)
    (cap nonce : Nat) (recordType versionMajor versionMinor : Byte) (data rest : List Byte)
    (pLen : Nat) (hlen : data.length < 65536) (hfit : 5 + data.length + Overhead ≤ cap)
    (hp : 5 + data.length ≤ pLen) :
    TLSEncryptedStreamReader.Read aead cap
      ⟨nonce, [], TLSRecord.wire aead nonce ⟨recordType, versionMajor, versionMinor, data⟩ ++
        rest⟩ pLen =
      (⟨TLSRecord.nextNonce nonce ⟨recordType, versionMajor, versionMinor, data⟩, [], rest⟩,
        [recordType, versionMajor, versionMinor, Fin.ofNat (data.length / 256),
          Fin.ofNat (data.length % 256)] ++ data, none) :=
  TLSEncryptedStreamReader.Read_record aead ha cap nonce
    ⟨recordType, versionMajor, versionMinor, data⟩ rest pLen hlen hfit
    (by rw [TLSRecord.bytes_eq, List.length_append, TLSRecord.header_length]; exact hp)

theorem TLSEncryptedStreamReader.Read_any_version_witness :
    TLSEncryptedStreamReader.Read toyAEAD 100
      ⟨0, [], TLSRecord.wire toyAEAD 0 ⟨22, 5, 5, [1, 2, 3]⟩ ++ [7]⟩ 100 =
      (⟨TLSRecord.nextNonce 0 ⟨22, 5, 5, [1, 2, 3]⟩, [], [7]⟩,
        [22, 5, 5, Fin.ofNat ([(1 : Byte), 2, 3].length / 256),
          Fin.ofNat ([(1 : Byte), 2, 3].length % 256)] ++ [1, 2, 3], none) :=
  TLSEncryptedStreamReader.Read_any_version toyAEAD toyAEAD_sound 100 0 22 5 5 [1, 2, 3] [7] 100
    (by decide) (by decide) (by decide)

/-- C14. For every non-empty password, `shadowstream.New` called without a key succeeds
on each of the nine names of `shadowstream.List` and returns a method of that name with
the key length and salt length of the table of the specification (which lists exactly
the names of `List`); and for every name that is not in `List` it fails with
`os.ErrInvalid`, whatever the key and the password. -/
theorem New_accepts_exactly_the_list {σ : Type} (S : StreamPrimitives σ) (password : String)
    (hpw : password ≠ "") :
    specStreamTable.map (fun row => row.1) = shadowstream.List ∧
    (∀ (name : String) (keyLength saltLength : Nat),
      (name, keyLength, saltLength) ∈ specStreamTable →
      ∃ m : Method σ, New S name [] password = .ok m ∧ m.name = name ∧
        m.keyLength = keyLength ∧ m.saltLength = saltLength) ∧
    (∀ (name : String) (key : List Byte) (pw : String), name ∉ shadowstream.List →
      New S name key pw = .error .ErrInvalid) := by
  refine ⟨rfl, ?_, ?_⟩
  · intro name keyLength saltLength hrow
    simp only [specStreamTable, List.mem_cons, Prod.mk.injEq, List.mem_nil_iff, or_false] at hrow
    rcases hrow with h | h | h | h | h | h | h | h | h <;>
      obtain ⟨rfl, rfl, rfl⟩ := h <;>
      simp [New, New.withKey, hpw, aesBlockSize]
  · intro name key pw hname
    simp only [shadowstream.List, List.mem_cons, List.mem_nil_iff, or_false, not_or] at hname
    obtain ⟨h1, h2, h3, h4, h5, h6, h7, h8, h9⟩ := hname
    simp [New, h1, h2, h3, h4, h5, h6, h7, h8, h9]

theorem New_accepts_exactly_the_list_witness :
    specStreamTable.map (fun row => row.1) = shadowstream.List ∧
    (∀ (name : String) (keyLength saltLength : Nat),
      (name, keyLength, saltLength) ∈ specStreamTable →
      ∃ m : Method (Byte × Nat), New toyStream name [] "test" = .ok m ∧ m.name = name ∧
        m.keyLength = keyLength ∧ m.saltLength = saltLength) ∧
    (∀ (name : String) (key : List Byte) (pw : String), name ∉ shadowstream.List →
      New toyStream name key pw = .error .ErrInvalid) :=
  New_accepts_exactly_the_list toyStream "test" (by decide)

/-! ## Claims on the AEAD service and the method factory -/

/-- C12 (counterexample). For a method with a key length of 16, a connection that ends
after 10 of the 34 bytes of the session header makes `Service.newConnection` return the
read error wrapped as "read header", which is not `ErrBadHeader`; the handler is not
called. -/
theorem shadowaead.Service.newConnection_short_header_example :
    (exampleService.newConnection toyExternals (fun _ => none) (List.replicate 10 3)
      exampleByteMetadata).calls.length = 0 ∧
    (exampleService.newConnection toyExternals (fun _ => none) (List.replicate 10 3)
      exampleByteMetadata).err = some (.cause (.external "unexpected EOF") "read header") ∧
    (exampleService.newConnection toyExternals (fun _ => none) (List.replicate 10 3)
      exampleByteMetadata).err ≠ some .ErrBadHeader := by
  decide

/-- C12 (amended). If the inbound connection ends before supplying all
`keySaltLength + 2 + 16` bytes of the session header, `Service.newConnection` of package
`shadowaead` fails with the error of the read (`io.EOF` when no byte arrived,
`io.ErrUnexpectedEOF` otherwise) wrapped with the text "read header", and never calls
the handler. -/
theorem shadowaead.Service.newConnection_short_header {A R : Type}
    (E : shadowaead.Externals A R) (s : shadowaead.Service)
    (handler : shadowaead.ConnCall A R → Option Error) (input : List Byte)
    (metadata : Metadata A) (hshort : input.length < s.Method.keySaltLength + 2 + 16) :
    s.newConnection E handler input metadata =
      ⟨[], some (.cause (.external (if input.length = 0 then "EOF" else "unexpected EOF"))
        "read header")⟩ := by
  unfold shadowaead.Service.newConnection bufferReadFullFrom
  simp only [PacketLengthBufferSize, Overhead]
  rw [if_pos hshort]

theorem shadowaead.Service.newConnection_short_header_witness :
    exampleService.newConnection toyExternals (fun _ => none) (List.replicate 10 3)
        exampleByteMetadata =
      ⟨[], some (.cause (.external (if (List.replicate 10 (3 : Byte)).length = 0 then "EOF"
        else "unexpected EOF")) "read header")⟩ :=
  shadowaead.Service.newConnection_short_header toyExternals exampleService (fun _ => none)
    (List.replicate 10 3) exampleByteMetadata (by decide)

/-- C13. `FetchMethod(name, password)` returns the no-op method and no error for the
names "none", "plain" and "dummy", whatever the password; and for every name that is
neither one of these nor in the list of the stream methods, of the AEAD methods or of
the 2022 methods, it returns no method and the error with the text
"shadowsocks: unsupported method " followed by the name. -/
theorem FetchMethod_sentinels_and_unknown {σ M2 M3 : Type} (S : StreamPrimitives σ)
    (aeadList aead2022List : List String)
    (aeadNew : String → List Byte → String → Except Error M2)
    (newWithPassword : String → String → Except Error M3) (name password : String) :
    (name = "none" ∨ name = "plain" ∨ name = "dummy" →
      FetchMethod S aeadList aead2022List aeadNew newWithPassword name password =
        .ok .none) ∧
    (¬(name = "none" ∨ name = "plain" ∨ name = "dummy") → name ∉ shadowstream.List →
      name ∉ aeadList → name ∉ aead2022List →
      FetchMethod S aeadList aead2022List aeadNew newWithPassword name password =
        .error (.message ("shadowsocks: unsupported method " ++ name))) := by
  constructor
  · intro h
    unfold FetchMethod
    rw [if_pos h]
  · intro h1 h2 h3 h4
    unfold FetchMethod
    rw [if_neg h1, if_neg h2, if_neg h3, if_neg h4]

theorem FetchMethod_sentinels_and_unknown_witness :
    (("aes-128-xyz" : String) = "none" ∨ ("aes-128-xyz" : String) = "plain" ∨
        ("aes-128-xyz" : String) = "dummy" →
      FetchMethod toyStream specAeadList specAead2022List
        (fun _ _ _ => (.error .ErrInvalid : Except Error Unit))
        (fun _ _ => (.error .ErrInvalid : Except Error Unit)) "aes-128-xyz" "secret" =
        .ok .none) ∧
    (¬(("aes-128-xyz" : String) = "none" ∨ ("aes-128-xyz" : String) = "plain" ∨
        ("aes-128-xyz" : String) = "dummy") →
      "aes-128-xyz" ∉ shadowstream.List → "aes-128-xyz" ∉ specAeadList →
      "aes-128-xyz" ∉ specAead2022List →
      FetchMethod toyStream specAeadList specAead2022List
        (fun _ _ _ => (.error .ErrInvalid : Except Error Unit))
        (fun _ _ => (.error .ErrInvalid : Except Error Unit)) "aes-128-xyz" "secret" =
        .error (.message ("shadowsocks: unsupported method " ++ "aes-128-xyz"))) :=
  FetchMethod_sentinels_and_unknown toyStream specAeadList specAead2022List
    (fun _ _ _ => (.error .ErrInvalid : Except Error Unit))
    (fun _ _ => (.error .ErrInvalid : Except Error Unit)) "aes-128-xyz" "secret"

/-- The function `FetchMethod` at the names of the specification: the three reserved names and the unknown
method "aes-128-xyz", with the method lists of the table of the specification. -/
theorem FetchMethod_examples :
    (∀ password : String,
      FetchMethod toyStream specAeadList specAead2022List
        (fun _ _ _ => (.error .ErrInvalid : Except Error Unit))
        (fun _ _ => (.error .ErrInvalid : Except Error Unit)) "none" password = .ok .none ∧
      FetchMethod toyStream specAeadList specAead2022List
        (fun _ _ _ => (.error .ErrInvalid : Except Error Unit))
        (fun _ _ => (.error .ErrInvalid : Except Error Unit)) "plain" password = .ok .none ∧
      FetchMethod toyStream specAeadList specAead2022List
        (fun _ _ _ => (.error .ErrInvalid : Except Error Unit))
        (fun _ _ => (.error .ErrInvalid : Except Error Unit)) "dummy" password = .ok .none ∧
      FetchMethod toyStream specAeadList specAead2022List
        (fun _ _ _ => (.error .ErrInvalid : Except Error Unit))
        (fun _ _ => (.error .ErrInvalid : Except Error Unit)) "aes-128-xyz" password =
        .error (.message "shadowsocks: unsupported method aes-128-xyz")) := by
  intro password
  exact ⟨rfl, rfl, rfl, rfl⟩

/-- The buffer of `serverPacketWriter.WritePacket` once the salt and the address are
written into the head room. -/
theorem WritePacket_header (salt addr payload : List Byte) :
    copyAt (copyAt (List.replicate (salt.length + addr.length) 0 ++ payload) 0 salt)
      salt.length addr = salt ++ addr ++ payload := by
  have h1 : copyAt (List.replicate (salt.length + addr.length) 0 ++ payload) 0 salt =
      salt ++ List.replicate addr.length 0 ++ payload := by
    rw [copyAt_zero_head _ _ (by simp; omega), List.replicate_add, List.append_assoc,
      List.append_assoc]
    congr 1
    exact List.drop_left' (by simp)
  rw [h1]
  exact copyAt_exact salt (List.replicate addr.length 0) payload addr (by simp)

/-- C16. For a method of package `shadowaead` whose constructor builds a sound AEAD
from `Kdf(key, salt)`, a salt of `keySaltLength` bytes from the random source, and a
destination that the address parser reads back from its serialised form:
`serverPacketWriter.WritePacket` passes on the one datagram
`salt ++ Seal(nonce 0, addr(destination) ++ payload)`, of
`keySaltLength + addr_len + len(payload) + 16` bytes; and `Service.newPacket` with the
same method on that datagram returns no error and hands the UDP NAT that destination and
exactly that payload. -/
theorem shadowaead.packet_round_trip {A R : Type} (E : shadowaead.Externals A R)
    (rand : Nat → List Byte) (sourceWrite : List Byte → Option Error) (w : shadowaead.Method)
    (password : String) (aead : AEAD) (destination : A) (payload : List Byte)
    (metadata : Metadata A) (ha : aead.Sound)
    (hrand : (rand w.keySaltLength).length = w.keySaltLength)
    (hcons : w.constructor (E.Kdf w.key (rand w.keySaltLength) w.keySaltLength) = .ok aead)
    (hparse : ∀ rest, E.ReadAddrPort (E.addrPort destination ++ rest) = .ok (destination, rest)) :
    (shadowaead.serverPacketWriter.WritePacket E rand sourceWrite w payload destination).calls =
      [rand w.keySaltLength ++ aead.Seal 0 (E.addrPort destination ++ payload)] ∧
    (rand w.keySaltLength ++ aead.Seal 0 (E.addrPort destination ++ payload)).length =
      w.keySaltLength + (E.addrPort destination).length + payload.length + 16 ∧
    shadowaead.Service.newPacket E { Method := w, password := password }
        (rand w.keySaltLength ++ aead.Seal 0 (E.addrPort destination ++ payload)) metadata =
      ⟨[{ key := metadata.Source, buffer := payload
          metadata := { metadata with Protocol := "shadowsocks", Destination := destination } }],
        none⟩ := by
  have hsalt := copyAt_replicate_zero _ _ hrand
  have hlen : (rand w.keySaltLength ++ aead.Seal 0 (E.addrPort destination ++ payload)).length =
      w.keySaltLength + (E.addrPort destination).length + payload.length + 16 := by
    rw [List.length_append, ha.2, hrand, List.length_append, Overhead]
    omega
  have htake : ∀ rest : List Byte, (rand w.keySaltLength ++ rest).take w.keySaltLength =
      rand w.keySaltLength := fun rest => List.take_left' hrand
  have hdrop : ∀ rest : List Byte, (rand w.keySaltLength ++ rest).drop w.keySaltLength =
      rest := fun rest => List.drop_left' hrand
  refine ⟨?_, hlen, ?_⟩
  · have hbuf := WritePacket_header (rand w.keySaltLength) (E.addrPort destination) payload
    rw [hrand] at hbuf
    unfold shadowaead.serverPacketWriter.WritePacket
    simp only [hsalt, hbuf, List.append_assoc, htake, hdrop, hcons]
    rw [List.take_of_length_le]
    rw [hlen]
    simp only [List.length_append, hrand, Overhead]
    omega
  · unfold shadowaead.Service.newPacket
    simp only
    rw [if_neg (by rw [hlen]; omega)]
    simp only [htake, hdrop, hcons, ha.1, hparse]

theorem shadowaead.packet_round_trip_witness :
    (shadowaead.serverPacketWriter.WritePacket toyExternals exampleRand exampleConnWrite
      exampleAeadMethod [104, 105] [9, 8, 7]).calls =
      [exampleRand exampleAeadMethod.keySaltLength ++
        toyAEAD.Seal 0 (toyExternals.addrPort [9, 8, 7] ++ [104, 105])] ∧
    (exampleRand exampleAeadMethod.keySaltLength ++
      toyAEAD.Seal 0 (toyExternals.addrPort [9, 8, 7] ++ [104, 105])).length =
      exampleAeadMethod.keySaltLength + (toyExternals.addrPort [9, 8, 7]).length +
        [(104 : Byte), 105].length + 16 ∧
    shadowaead.Service.newPacket toyExternals { Method := exampleAeadMethod, password := "test" }
        (exampleRand exampleAeadMethod.keySaltLength ++
          toyAEAD.Seal 0 (toyExternals.addrPort [9, 8, 7] ++ [104, 105])) exampleByteMetadata =
      ⟨[{ key := exampleByteMetadata.Source, buffer := [104, 105]
          metadata := { exampleByteMetadata with
            Protocol := "shadowsocks", Destination := [9, 8, 7] } }],
        none⟩ :=
  shadowaead.packet_round_trip toyExternals exampleRand exampleConnWrite exampleAeadMethod "test"
    toyAEAD [9, 8, 7] [104, 105] exampleByteMetadata toyAEAD_sound (by decide) rfl
    (fun _ => rfl)

/-! ## The 2022 multi-user service against its client -/

theorem beUint16_chunkLength (n : Nat) (h : n < 65536) : beUint16 (chunkLength n) = n := by
  simp only [chunkLength, beUint16, List.take_succ_cons, List.take_zero, List.foldl_cons,
    List.foldl_nil, Fin.ofNat, Nat.zero_mul, Nat.zero_add]
  omega

/-- The reader of the first chunk returns what the writer of the first chunk framed. -/
theorem readFirstChunk_writeFirstChunk (aead : AEAD) (ha : aead.Sound) (x rest : List Byte)
    (hx : x.length < 2 ^ 14) :
    readFirstChunk aead (writeFirstChunk aead x ++ rest) = .ok (x, rest) := by
  have h1 : readFull (writeFirstChunk aead x ++ rest) (PacketLengthBufferSize + Overhead) =
      .ok (aead.Seal 0 (chunkLength x.length), aead.Seal (increaseNonce 0) x ++ rest) := by
    unfold writeFirstChunk
    rw [List.append_assoc]
    exact readFull_append' _ _ _ (by rw [ha.2]; rfl)
  have h2 : readFull (aead.Seal (increaseNonce 0) x ++ rest) (x.length + Overhead) =
      .ok (aead.Seal (increaseNonce 0) x, rest) :=
    readFull_append' _ _ _ (ha.2 _ _)
  have h3 : beUint16 (chunkLength x.length) = x.length :=
    beUint16_chunkLength _ (by omega)
  unfold readFirstChunk
  simp only [h1, ha.1, h3]
  rw [if_neg (by omega)]
  simp only [h2, ha.1]

/-- The entry of a list of users and keys at a position where both lists have one. -/
theorem zip_getElem?_of {U : Type} (ul : List U) (kl : List (List Byte)) (j : Nat) (u : U)
    (key : List Byte) (hu : ul[j]? = some u) (hk : kl[j]? = some key) :
    (ul.zip kl)[j]? = some (u, key) :=
  List.getElem?_zip_eq_some.2 ⟨hu, hk⟩

/-- C15 (on the service and client modelled from the specification). For the method
2022-blake3-aes-128-gcm, every 16-byte iPSK and every 16-byte uPSK registered for the
user `u` through `MultiService.UpdateUsers` (with no later entry for the same user or
with the same identity hash), and every destination `D` that the address parser reads
back: the request that the client built with `New(method, [iPSK, uPSK])` writes when it
dials `D` makes `MultiService.NewConnection` call the handler exactly once, with the user
`u`, `metadata.Destination = D` and the payload of the request, and return what the
handler returns (no error when the handler returns none). -/
theorem MultiService.round_trip {U A : Type} [DecidableEq U] (P : Primitives)
    (hP : P.WellSized) (hI : P.BlockInverse) (aeadOf : List Byte → AEAD)
    (haead : ∀ key, (aeadOf key).Sound) (addrPort : A → List Byte)
    (ReadAddrPort : List Byte → Except Error (A × List Byte)) (rand : Nat → List Byte)
    (iPSK uPSK : List Byte) (hi : iPSK.length = 16) (hu : uPSK.length = 16)
    (s0 s : MultiService U)
    (hnew : NewMultiService P "2022-blake3-aes-128-gcm" iPSK = .ok s0)
    (ul : List U) (kl : List (List Byte)) (hupd : s0.UpdateUsers P ul kl = .ok s)
    (j : Nat) (u : U) (hj : ul[j]? = some u) (hk : kl[j]? = some uPSK)
    (hlast : ∀ (j' : Nat) (u' : U) (key' : List Byte), j < j' → ul[j']? = some u' →
      kl[j']? = some key' →
      u' ≠ u ∧ identityHash P (effectiveKey P 16 key') ≠ identityHash P uPSK)
    (m : shadowaead_2022.Method)
    (hm : shadowaead_2022.New "2022-blake3-aes-128-gcm" [iPSK, uPSK] = .ok m)
    (D : A) (payload : List Byte)
    (hparse : ∀ rest, ReadAddrPort (addrPort D ++ rest) = .ok (D, rest))
    (hsize : (addrPort D ++ payload).length < 2 ^ 14)
    (handler : MultiConnCall U A → Option Error) (md : Metadata A) :
    ∃ request : List Byte,
      m.DialConn P aeadOf addrPort rand D payload = .ok request ∧
      s.NewConnection P aeadOf ReadAddrPort handler request md =
        ⟨[{ user := u
            metadata := { md with Protocol := "shadowsocks", Destination := D }
            payload := payload }],
          handler
            { user := u
              metadata := { md with Protocol := "shadowsocks", Destination := D }
              payload := payload }⟩ := by
  have heff : ∀ key : List Byte, key.length = 16 → effectiveKey P 16 key = key := by
    intro key hkey
    unfold effectiveKey
    rw [if_neg (by omega)]
  have hs0 : s0 =
      { keySaltLength := 16, iPSK := iPSK, uPSKHash := GoMap.empty, uPSK := GoMap.empty } := by
    simp only [NewMultiService, if_true] at hnew
    rw [if_neg (by omega), heff iPSK hi] at hnew
    simpa using hnew.symm
  subst hs0
  have hm' : m = { keySaltLength := 16, pskList := [iPSK, uPSK] } := by
    simp [shadowaead_2022.New, hi, hu] at hm
    exact hm.symm
  subst hm'
  unfold MultiService.UpdateUsers at hupd
  split at hupd
  · simp at hupd
  · simp only [Except.ok.injEq] at hupd
    subst hupd
    have hzip := zip_getElem?_of ul kl j u uPSK hj hk
    have hhash : (GoMap.empty.setAll ((ul.zip kl).map fun uk =>
        (identityHash P (effectiveKey P 16 uk.2), uk.1)) : GoMap (List Byte) U)
        (identityHash P uPSK) = some u := by
      refine GoMap.setAll_last _ _ j _ _ ?_ ?_
      · rw [List.getElem?_map, hzip]
        simp [heff uPSK hu]
      · intro j' kv hlt hkv
        rw [List.getElem?_map] at hkv
        cases hz : (ul.zip kl)[j']? with
        | none => simp [hz] at hkv
        | some uk =>
          simp only [hz, Option.map_some', Option.some.injEq] at hkv
          obtain ⟨h1, h2⟩ := List.getElem?_zip_eq_some.1 hz
          rw [← hkv]
          exact (hlast j' uk.1 uk.2 hlt h1 h2).2
    have hkey : (GoMap.empty.setAll ((ul.zip kl).map fun uk =>
        (uk.1, effectiveKey P 16 uk.2)) : GoMap U (List Byte)) u = some uPSK := by
      refine GoMap.setAll_last _ _ j _ _ ?_ ?_
      · rw [List.getElem?_map, hzip]
        simp [heff uPSK hu]
      · intro j' kv hlt hkv
        rw [List.getElem?_map] at hkv
        cases hz : (ul.zip kl)[j']? with
        | none => simp [hz] at hkv
        | some uk =>
          simp only [hz, Option.map_some', Option.some.injEq] at hkv
          obtain ⟨h1, h2⟩ := List.getElem?_zip_eq_some.1 hz
          rw [← hkv]
          exact (hlast j' uk.1 uk.2 hlt h1 h2).1
    have hsalt : (copyAt (List.replicate 16 0) 0 (rand 16)).length = 16 := by
      rw [copyAt_length _ _ _ (by simp)]
      simp
    have hih : (identityHash P uPSK).length = 16 := by
      unfold identityHash
      rw [copyAt_length _ _ _ (by simp)]
      simp [aesBlockSize]
    refine ⟨_, rfl, ?_⟩
    generalize hsaltdef : copyAt (List.replicate 16 0) 0 (rand 16) = salt at hsalt
    have heih : (P.aesEncrypt
        (deriveSubkey P "shadowsocks 2022 identity subkey" 16 iPSK salt)
        (identityHash P uPSK)).length = 16 := hP.2.1 _ _ hih
    have hrf : ∀ rest : List Byte, readFull (salt ++ P.aesEncrypt
        (deriveSubkey P "shadowsocks 2022 identity subkey" 16 iPSK salt)
        (identityHash P uPSK) ++ rest) (16 + aesBlockSize) =
        .ok (salt ++ P.aesEncrypt
          (deriveSubkey P "shadowsocks 2022 identity subkey" 16 iPSK salt)
          (identityHash P uPSK), rest) := by
      intro rest
      exact readFull_append' _ _ _ (by rw [List.length_append, hsalt, heih]; rfl)
    have hrt : ∀ key : List Byte, readFirstChunk (aeadOf key)
        (writeFirstChunk (aeadOf key) (addrPort D ++ payload)) =
        .ok (addrPort D ++ payload, []) := by
      intro key
      have := readFirstChunk_writeFirstChunk (aeadOf key) (haead key) _ [] hsize
      rwa [List.append_nil] at this
    unfold MultiService.NewConnection
    simp only [hrf, List.take_left' hsalt, List.drop_left' hsalt, hI _ _ hih, hhash, hkey,
      hrt, hparse]

theorem byte_xor_cancel (x y : Byte) : (x ^^^ y) ^^^ y = x := by
  apply Fin.ext
  show ((x.val ^^^ y.val) % 256 ^^^ y.val) % 256 = x.val
  have h1 : x.val ^^^ y.val < 256 := Nat.xor_lt_two_pow (n := 8) x.isLt y.isLt
  rw [Nat.mod_eq_of_lt h1, Nat.xor_cancel_right, Nat.mod_eq_of_lt x.isLt]

theorem xorBytes_cancel (b k : List Byte) (h : b.length ≤ k.length) :
    xorBytes (xorBytes b k) k = b := by
  induction b generalizing k with
  | nil => simp [xorBytes]
  | cons x b ih =>
    cases k with
    | nil => simp at h
    | cons y k =>
      have := ih k (by simpa using h)
      simp only [xorBytes, List.zipWith_cons_cons, List.cons.injEq] at this ⊢
      exact ⟨byte_xor_cancel x y, this⟩

theorem toyPrimitives_blockInverse : toyPrimitives.BlockInverse := by
  intro key block h
  exact xorBytes_cancel block (padTo 16 key) (by simp [padTo, h])

theorem MultiService.round_trip_witness :
    ∃ request : List Byte,
      shadowaead_2022.Method.DialConn toyPrimitives (fun _ => toyAEAD) toyExternals.addrPort
        exampleRand { keySaltLength := 16, pskList := [examplePsk, List.replicate 16 2] }
        (stringBytes "test.com:443") [] = .ok request ∧
      exampleMultiService.NewConnection toyPrimitives (fun _ => toyAEAD)
          toyExternals.ReadAddrPort (fun _ => none) request exampleByteMetadata =
        ⟨[{ user := "my user"
            metadata := { exampleByteMetadata with
              Protocol := "shadowsocks", Destination := stringBytes "test.com:443" }
            payload := [] }],
          none⟩ :=
  MultiService.round_trip toyPrimitives toyPrimitives_wellSized toyPrimitives_blockInverse
    (fun _ => toyAEAD) (fun _ => toyAEAD_sound) toyExternals.addrPort toyExternals.ReadAddrPort
    exampleRand examplePsk (List.replicate 16 2) (by decide) (by decide)
    { exampleMultiService with uPSKHash := GoMap.empty, uPSK := GoMap.empty }
    exampleMultiService rfl ["my user"] [List.replicate 16 2] rfl 0 "my user" rfl rfl
    (by
      intro j' u' key' hlt hu'
      cases j' with
      | zero => omega
      | succ j' => simp at hu')
    { keySaltLength := 16, pskList := [examplePsk, List.replicate 16 2] } rfl
    (stringBytes "test.com:443") [] (fun _ => rfl) (by decide) (fun _ => none)
    exampleByteMetadata

end Shadowsocks
